import Mathlib

/-!
Verification of the audio pipeline, the streaming ring buffer and the
model-lifecycle services of the voice sentiment analysis backend.

The Python sources are embedded shallowly:

* pure numeric code is translated to functions on `ℚ` and `List ℚ`
  (Python `int(...)` truncation is modelled by `ratTrunc`);
* filesystem and subprocess effects become explicit parameters
  (`FileInfo`, `FfmpegOutcome`, `Except`-valued read results);
* the two model services become explicit state-passing functions;
* the unsynchronised `load_model` race is modelled by a small-step
  interleaving semantics of two threads over a shared state.
-/

/-- Truncation toward zero, the semantics of Python `int(...)` applied to a
number: `⌈q⌉` for negative `q`, `⌊q⌋` otherwise. -/
def ratTrunc (q : ℚ) : ℤ :=
  q.num.tdiv q.den

theorem ratTrunc_eq (q : ℚ) : ratTrunc q = if q < 0 then ⌈q⌉ else ⌊q⌋ := by
  unfold ratTrunc
  split
  · next h =>
    have hnum : q.num < 0 := Rat.num_neg.mpr h
    have h1 : q.num.tdiv q.den = -((-q.num).tdiv q.den) := by
      rw [← Int.neg_tdiv, neg_neg]
    have h2 : (-q.num).tdiv q.den = (-q).num / ((-q).den : ℤ) := by
      rw [Rat.neg_num, show (-q).den = q.den from rfl]
      exact Int.tdiv_eq_ediv (by omega) (by positivity)
    rw [h1, h2, ← Rat.floor_def, Int.floor_neg, neg_neg]
  · next h =>
    have hnum : 0 ≤ q.num := Rat.num_nonneg.mpr (le_of_not_lt h)
    rw [Int.tdiv_eq_ediv hnum (by positivity), ← Rat.floor_def]

theorem ratTrunc_intCast (n : ℤ) : ratTrunc (n : ℚ) = n := by
  rw [ratTrunc_eq]
  split <;> simp

theorem ratTrunc_natCast (n : ℕ) : ratTrunc (n : ℚ) = n := by
  have h := ratTrunc_intCast (n : ℤ)
  push_cast at h
  exact_mod_cast h

theorem ratTrunc_mono {q r : ℚ} (h : q ≤ r) : ratTrunc q ≤ ratTrunc r := by
  rw [ratTrunc_eq, ratTrunc_eq]
  by_cases hq : q < 0 <;> by_cases hr : r < 0 <;> simp [hq, hr]
  · exact Int.ceil_le_ceil h
  · calc ⌈q⌉ ≤ 0 := Int.ceil_le.mpr (by exact_mod_cast hq.le)
      _ ≤ ⌊r⌋ := Int.floor_nonneg.mpr (le_of_not_lt hr)
  · exact absurd (lt_of_le_of_lt h hr) hq
  · exact Int.floor_le_floor h

theorem ratTrunc_nonpos {q : ℚ} (h : q ≤ 0) : ratTrunc q ≤ 0 := by
  rw [ratTrunc_eq]
  split
  · exact Int.ceil_le.mpr (by exact_mod_cast h)
  · exact Int.floor_nonpos h

theorem ratTrunc_le_zero_of_lt_one {q : ℚ} (h : q < 1) : ratTrunc q ≤ 0 := by
  rw [ratTrunc_eq]
  split
  · next hq => exact Int.ceil_le.mpr (by exact_mod_cast hq.le)
  · exact Int.lt_add_one_iff.mp (by exact_mod_cast Int.floor_lt.mpr (by exact_mod_cast h))

theorem ratTrunc_lt_add_one {q : ℚ} : (ratTrunc q : ℚ) < q + 1 := by
  rw [ratTrunc_eq]
  split
  · exact lt_of_lt_of_le (by exact_mod_cast Int.ceil_lt_add_one q) (by linarith)
  · exact lt_of_le_of_lt (Int.floor_le q) (by linarith)

/-- Python slice `l[-k:]`.  For `k = 0` the slice `l[-0:]` is `l[0:]`, i.e.
the whole list — the well-known negative-zero slicing pitfall. -/
def pySliceLast (k : ℕ) (l : List α) : List α :=
  if k = 0 then l else l.drop (l.length - k)

theorem rtake_of_length_le (k : ℕ) (l : List α) (h : l.length ≤ k) :
    l.rtake k = l := by
  simp [List.rtake, Nat.sub_eq_zero_of_le h]

theorem length_rtake (k : ℕ) (l : List α) :
    (l.rtake k).length = min k l.length := by
  simp only [List.rtake, List.length_drop]
  omega

theorem pySliceLast_eq_rtake (k : ℕ) (l : List α) (hk : 1 ≤ k) :
    pySliceLast k l = l.rtake k := by
  unfold pySliceLast List.rtake
  rw [if_neg (by omega)]

theorem reverse_rtake (k : ℕ) (l : List α) :
    (l.rtake k).reverse = l.reverse.take k := by
  rw [List.rtake_eq_reverse_take_reverse, List.reverse_reverse]

theorem rtake_append_rtake (k : ℕ) (xs ys : List α) :
    (xs.rtake k ++ ys).rtake k = (xs ++ ys).rtake k := by
  simp only [List.rtake_eq_reverse_take_reverse, List.reverse_append, List.reverse_reverse,
    List.take_append_eq_append_take, List.take_take, List.length_reverse]
  congr 3
  omega

/-! ## `AudioBuffer` (`audio_utils.py`, class `AudioBuffer`)

Samples are `ℚ`; `buffer` is the `np.ndarray` contents, `maxSamples` the
capacity `int(sample_rate * max_duration)`, `lock` the `_lock` flag (which
the source initialises to `False` and never sets). -/

structure AudioBuffer where
  sampleRate : ℕ
  maxSamples : ℕ
  lock : Bool
  buffer : List ℚ
  deriving DecidableEq

/-- `AudioBuffer.__init__(sample_rate, max_duration)`. -/
def AudioBuffer.init (sampleRate : ℕ) (maxDuration : ℚ) : AudioBuffer :=
  { sampleRate := sampleRate
    maxSamples := (ratTrunc (sampleRate * maxDuration)).toNat
    lock := false
    buffer := [] }

/-- `AudioBuffer.append`: concatenate, then trim with the Python slice
`buffer[-max_samples:]` when the length exceeds `max_samples`. -/
def AudioBuffer.append (b : AudioBuffer) (data : List ℚ) : AudioBuffer :=
  if b.lock then b
  else
    let buf := b.buffer ++ data
    if b.maxSamples < buf.length then
      { b with buffer := pySliceLast b.maxSamples buf }
    else
      { b with buffer := buf }

/-- `AudioBuffer.get_chunk(start_offset, duration)`: window relative to the
current end of the buffer, truncated to `int`, clamped, empty when
inverted. -/
def AudioBuffer.getChunk (b : AudioBuffer) (startOffset duration : ℚ) : List ℚ :=
  let len : ℤ := b.buffer.length
  let startSample : ℤ := ratTrunc ((b.buffer.length : ℚ) - startOffset * b.sampleRate)
  let endSample : ℤ := ratTrunc ((startSample : ℚ) + duration * b.sampleRate)
  let s : ℤ := max 0 startSample
  let e : ℤ := min len endSample
  if e ≤ s then []
  else (b.buffer.drop s.toNat).take (e - s).toNat

/-- `AudioBuffer.get_all`. -/
def AudioBuffer.getAll (b : AudioBuffer) : List ℚ := b.buffer

/-- `AudioBuffer.clear`. -/
def AudioBuffer.clear (b : AudioBuffer) : AudioBuffer := { b with buffer := [] }

/-- `AudioBuffer.is_empty`. -/
def AudioBuffer.isEmpty (b : AudioBuffer) : Bool := b.buffer.length = 0

/-- `AudioBuffer.length_seconds`. -/
def AudioBuffer.lengthSeconds (b : AudioBuffer) : ℚ :=
  (b.buffer.length : ℚ) / b.sampleRate

theorem AudioBuffer.append_lock (b : AudioBuffer) (data : List ℚ) :
    (b.append data).lock = b.lock := by
  unfold AudioBuffer.append
  split
  · rfl
  · dsimp only
    split <;> rfl

theorem AudioBuffer.append_maxSamples (b : AudioBuffer) (data : List ℚ) :
    (b.append data).maxSamples = b.maxSamples := by
  unfold AudioBuffer.append
  split
  · rfl
  · dsimp only
    split <;> rfl

theorem AudioBuffer.append_buffer (b : AudioBuffer) (data : List ℚ)
    (hlock : b.lock = false) (hC : 1 ≤ b.maxSamples) :
    (b.append data).buffer = (b.buffer ++ data).rtake b.maxSamples := by
  unfold AudioBuffer.append
  rw [if_neg (by simp [hlock])]
  dsimp only
  split
  · next h => rw [pySliceLast_eq_rtake _ _ hC]
  · next h =>
    rw [rtake_of_length_le _ _ (le_of_not_lt (by omega))]

theorem foldl_append_buffer (datas : List (List ℚ)) (b : AudioBuffer)
    (hlock : b.lock = false) (hC : 1 ≤ b.maxSamples)
    (hlen : b.buffer.length ≤ b.maxSamples) :
    (datas.foldl AudioBuffer.append b).buffer = (b.buffer ++ datas.flatten).rtake b.maxSamples := by
  induction datas generalizing b with
  | nil =>
    simp only [List.foldl_nil, List.flatten_nil, List.append_nil]
    exact (rtake_of_length_le _ _ hlen).symm
  | cons d rest ih =>
    have hbuf := b.append_buffer d hlock hC
    have h1 := ih (b.append d)
      (by rw [AudioBuffer.append_lock]; exact hlock)
      (by rw [AudioBuffer.append_maxSamples]; exact hC)
      (by rw [hbuf, AudioBuffer.append_maxSamples, length_rtake]; omega)
    rw [List.foldl_cons, h1, AudioBuffer.append_maxSamples, hbuf, rtake_append_rtake,
      List.append_assoc, List.flatten_cons]

/-- C4 counterexample: an `AudioBuffer` constructed with `max_duration = 0`
has capacity `C = 0`, yet after appending one sample its length is `1 > 0`:
the trimming slice `buffer[-0:]` keeps the whole buffer, so the length can
exceed the capacity. -/
theorem audioBuffer_append_capacity_counterexample :
    (AudioBuffer.init 16000 0).maxSamples = 0 ∧
    ((AudioBuffer.init 16000 0).append [1]).buffer.length = 1 := by
  have hinit : AudioBuffer.init 16000 0 = ⟨16000, 0, false, []⟩ := by
    unfold AudioBuffer.init
    have : ratTrunc ((16000 : ℕ) * (0 : ℚ)) = ((0 : ℕ) : ℤ) := by
      rw [mul_zero, show (0 : ℚ) = ((0 : ℕ) : ℚ) by norm_num, ratTrunc_natCast]
    rw [this]
    rfl
  rw [hinit]
  exact ⟨rfl, rfl⟩

/-- C4 (amended): for every buffer with capacity `C ≥ 1`, any sequence of
`append` calls starting from the fresh buffer leaves at most `C` samples;
the final contents are exactly the most recent `C` samples of everything
appended, in original order; when the total appended exceeds `C` the length
is exactly `C`, and when it fits the contents are everything appended.
(`append` is a total function: it never raises and never blocks.) -/
theorem audioBuffer_append_capacity (rate C : ℕ) (hC : 1 ≤ C)
    (datas : List (List ℚ)) :
    ((datas.foldl AudioBuffer.append ⟨rate, C, false, []⟩).buffer.length ≤ C) ∧
    ((datas.foldl AudioBuffer.append ⟨rate, C, false, []⟩).buffer = datas.flatten.rtake C) ∧
    (C < datas.flatten.length →
      (datas.foldl AudioBuffer.append ⟨rate, C, false, []⟩).buffer.length = C) ∧
    (datas.flatten.length ≤ C →
      (datas.foldl AudioBuffer.append ⟨rate, C, false, []⟩).buffer = datas.flatten) := by
  have h := foldl_append_buffer datas ⟨rate, C, false, []⟩ rfl hC (by simp)
  simp only [List.nil_append] at h
  refine ⟨?_, h, ?_, ?_⟩
  · rw [h, length_rtake]
    omega
  · intro hgt
    rw [h, length_rtake]
    omega
  · intro hle
    rw [h, rtake_of_length_le _ _ hle]

/-- C4 witness: with capacity `1` and appends `[1]` then `[2]`, the buffer
ends up holding exactly `[2]`. -/
theorem audioBuffer_append_capacity_witness :
    (([[1], [2]] : List (List ℚ)).foldl AudioBuffer.append ⟨1, 1, false, []⟩).buffer.length ≤ 1 ∧
    (([[1], [2]] : List (List ℚ)).foldl AudioBuffer.append ⟨1, 1, false, []⟩).buffer.length = 1 := by
  have h := audioBuffer_append_capacity 1 1 (by decide) [[1], [2]]
  exact ⟨h.1, h.2.2.1 (by decide)⟩

theorem getChunk_offset_zero (b : AudioBuffer) (d : ℚ) :
    b.getChunk 0 d = [] := by
  simp only [AudioBuffer.getChunk]
  have h0 : (b.buffer.length : ℚ) - 0 * b.sampleRate = ((b.buffer.length : ℕ) : ℚ) := by
    ring
  rw [h0, ratTrunc_natCast]
  rw [if_pos (le_trans (min_le_left _ _) (le_max_right 0 _))]

theorem getChunk_full_buffer (b : AudioBuffer) (hrate : 0 < b.sampleRate)
    (hlen : b.buffer.length = 2 * b.sampleRate) :
    b.getChunk 2 2 = b.buffer := by
  simp only [AudioBuffer.getChunk]
  have h1 : (b.buffer.length : ℚ) - 2 * b.sampleRate = ((0 : ℕ) : ℚ) := by
    rw [hlen]
    push_cast
    ring
  rw [h1, ratTrunc_natCast]
  have h2 : ((((0 : ℕ) : ℤ)) : ℚ) + 2 * b.sampleRate = ((2 * b.sampleRate : ℕ) : ℚ) := by
    push_cast
    ring
  rw [h2, ratTrunc_natCast, hlen]
  rw [if_neg (by push_cast; omega)]
  have hmax : (max 0 ((0 : ℕ) : ℤ)).toNat = 0 := by simp
  have hmin : ((min ((2 * b.sampleRate : ℕ) : ℤ) ((2 * b.sampleRate : ℕ) : ℤ))
      - max 0 ((0 : ℕ) : ℤ)).toNat = 2 * b.sampleRate := by
    simp
    omega
  rw [hmax, hmin, List.drop_zero, ← hlen, List.take_length]

theorem getChunk_empty_window (b : AudioBuffer) (off dur : ℚ)
    (hE : min (b.buffer.length : ℚ)
        (max 0 ((b.buffer.length : ℚ) - off * b.sampleRate + dur * b.sampleRate))
      ≤ min (b.buffer.length : ℚ) (max 0 ((b.buffer.length : ℚ) - off * b.sampleRate))) :
    b.getChunk off dur = [] := by
  simp only [AudioBuffer.getChunk]
  set L : ℕ := b.buffer.length with hL
  set sR : ℚ := (L : ℚ) - off * b.sampleRate with hsR
  set sI : ℤ := ratTrunc sR with hsI
  set dR : ℚ := dur * b.sampleRate with hdR
  set eI : ℤ := ratTrunc ((sI : ℚ) + dR) with heI
  rw [if_pos]
  rcases Nat.eq_zero_or_pos L with hL0 | hLpos
  · calc min (L : ℤ) eI ≤ (L : ℤ) := min_le_left _ _
      _ = 0 := by exact_mod_cast congrArg Nat.cast hL0
      _ ≤ max 0 sI := le_max_left 0 sI
  · by_cases hd : dR ≤ 0
    · have h1 : eI ≤ sI := by
        have hle : (sI : ℚ) + dR ≤ ((sI : ℤ) : ℚ) := by linarith
        calc eI ≤ ratTrunc ((sI : ℤ) : ℚ) := ratTrunc_mono hle
          _ = sI := ratTrunc_intCast sI
      exact le_trans (min_le_right _ _) (le_trans h1 (le_max_right _ _))
    · push_neg at hd
      by_cases he : sR + dR ≤ 0
      · have hsRneg : sR < 0 := by linarith
        have h1 : (sI : ℚ) < sR + 1 := ratTrunc_lt_add_one
        have h2 : (sI : ℚ) + dR < 1 := by linarith
        have h3 : eI ≤ 0 := ratTrunc_le_zero_of_lt_one h2
        exact le_trans (min_le_right _ _) (le_trans h3 (le_max_left _ _))
      · push_neg at he
        by_cases hs : (L : ℚ) ≤ sR
        · have h1 : (L : ℤ) ≤ sI := by
            have h := ratTrunc_mono hs
            rwa [ratTrunc_natCast] at h
          exact le_trans (min_le_left _ _) (le_trans h1 (le_max_right _ _))
        · push_neg at hs
          exfalso
          have hL' : (0 : ℚ) < L := by exact_mod_cast hLpos
          have h1 : max 0 (sR + dR) = sR + dR := max_eq_right he.le
          have h2 : max 0 sR < (L : ℚ) := max_lt hL' hs
          have h3 : min (L : ℚ) (max 0 sR) = max 0 sR := min_eq_right h2.le
          rcases le_total (L : ℚ) (sR + dR) with hcase | hcase
          · have h4 : min (L : ℚ) (max 0 (sR + dR)) = (L : ℚ) := by
              rw [h1]
              exact min_eq_left hcase
            rw [h4, h3] at hE
            linarith
          · have h4 : min (L : ℚ) (max 0 (sR + dR)) = sR + dR := by
              rw [h1]
              exact min_eq_right hcase
            rw [h4, h3] at hE
            have h5 : max 0 sR < sR + dR := by
              rcases le_total sR 0 with h6 | h6
              · rw [max_eq_left h6]
                linarith
              · rw [max_eq_right h6]
                linarith
            linarith

/-- C1 counterexample: a buffer at 2 samples/s holding `[1,2,3,4]` — exactly
2.0 seconds of audio — returns the *empty* sequence for
`get_chunk(start_offset=0, duration=2.0)`, not all buffered samples: the
window starts at the current end of the buffer. -/
theorem getChunk_counterexample :
    (AudioBuffer.buffer ⟨2, 100, false, [1, 2, 3, 4]⟩).length =
      2 * AudioBuffer.sampleRate ⟨2, 100, false, [1, 2, 3, 4]⟩ ∧
    AudioBuffer.getChunk ⟨2, 100, false, [1, 2, 3, 4]⟩ 0 2 = [] ∧
    AudioBuffer.getChunk ⟨2, 100, false, [1, 2, 3, 4]⟩ 0 2 ≠
      AudioBuffer.buffer ⟨2, 100, false, [1, 2, 3, 4]⟩ := by
  refine ⟨rfl, getChunk_offset_zero _ _, ?_⟩
  rw [getChunk_offset_zero]
  simp

/-- C1 (amended): `get_chunk(start_offset=0, duration)` always returns the
empty sequence (the window starts at the buffer's current end); the full
2.0-second buffer is returned by `get_chunk(start_offset=2.0, duration=2.0)`;
and any call whose window `[len − off·rate, len − off·rate + dur·rate]`,
clamped to `[0, len]`, is empty or inverted (including windows entirely
before sample 0) returns the empty sequence rather than raising. -/
theorem getChunk_spec :
    (∀ (b : AudioBuffer) (d : ℚ), b.getChunk 0 d = []) ∧
    (∀ b : AudioBuffer, 0 < b.sampleRate → b.buffer.length = 2 * b.sampleRate →
      b.getChunk 2 2 = b.buffer) ∧
    (∀ (b : AudioBuffer) (off dur : ℚ),
      min (b.buffer.length : ℚ)
          (max 0 ((b.buffer.length : ℚ) - off * b.sampleRate + dur * b.sampleRate))
        ≤ min (b.buffer.length : ℚ) (max 0 ((b.buffer.length : ℚ) - off * b.sampleRate)) →
      b.getChunk off dur = []) :=
  ⟨getChunk_offset_zero, getChunk_full_buffer, getChunk_empty_window⟩

/-- C1 witness: a buffer at 2 samples/s holding 4 samples returns all of
them for `get_chunk(2.0, 2.0)`, and returns the empty sequence for a window
lying beyond the buffer end (`start_offset = -3`). -/
theorem getChunk_spec_witness :
    AudioBuffer.getChunk ⟨2, 50, false, [5, 6, 7, 8]⟩ 2 2 = [5, 6, 7, 8] ∧
    AudioBuffer.getChunk ⟨2, 50, false, [5, 6, 7, 8]⟩ (-3) 1 = [] := by
  constructor
  · exact getChunk_spec.2.1 ⟨2, 50, false, [5, 6, 7, 8]⟩ (by norm_num) (by norm_num)
  · exact getChunk_spec.2.2 ⟨2, 50, false, [5, 6, 7, 8]⟩ (-3) 1 (by norm_num)

/-! ## `validate_audio_file` (`audio_utils.py`)

The filesystem is abstracted into a `FileInfo`: whether the path exists,
its rendered form, its extension (`Path.suffix`) and its size in bytes. -/

structure FileInfo where
  present : Bool
  path : String
  suffix : String
  sizeBytes : ℕ

/-- The `AUDIO_FORMATS` table of `audio_utils.py`. -/
def AUDIO_FORMATS : List (String × String) :=
  [(".wav", "audio/wav"), (".mp3", "audio/mpeg"), (".webm", "audio/webm"),
   (".ogg", "audio/ogg"), (".flac", "audio/flac"), (".m4a", "audio/mp4")]

/-- Round to the nearest integer, ties to even — the rounding used by
Python's fixed-point format `{:.1f}` (after scaling by 10). -/
def roundHalfEven (q : ℚ) : ℤ :=
  if q - ⌊q⌋ < 1 / 2 then ⌊q⌋
  else if 1 / 2 < q - ⌊q⌋ then ⌊q⌋ + 1
  else if ⌊q⌋ % 2 = 0 then ⌊q⌋ else ⌊q⌋ + 1

/-- Python `f"{q:.1f}"`: one digit after the decimal point, half-even. -/
def fmtFixed1 (q : ℚ) : String :=
  let n : ℤ := roundHalfEven (q * 10)
  if n < 0 then
    "-" ++ toString ((-n) / 10) ++ "." ++ toString ((-n) % 10)
  else
    toString (n / 10) ++ "." ++ toString (n % 10)

/-- Python `str.lower()`, character by character (ASCII-compatible with
`String.toLower`, but kernel-evaluable). -/
def pyLower (s : String) : String :=
  ⟨s.data.map Char.toLower⟩

/-- `validate_audio_file(file_path, max_size_mb, allowed_formats)`:
existence, then extension (the file's suffix lowercased, tested for literal
membership of the allowed list), then size, short-circuiting; always
returns a `(is_valid, error_message)` pair, never raises. -/
def validate_audio_file (f : FileInfo) (maxSizeMb : ℕ)
    (allowedFormats : Option (List String)) : Bool × String :=
  let allowed := allowedFormats.getD (AUDIO_FORMATS.map Prod.fst)
  if f.present = false then
    (false, "File not found: " ++ f.path)
  else if allowed.contains (pyLower f.suffix) = false then
    (false, "Unsupported format: " ++ pyLower f.suffix ++ ". Allowed: " ++ toString allowed)
  else if (maxSizeMb : ℚ) < (f.sizeBytes : ℚ) / (1024 * 1024) then
    (false, "File too large: " ++ fmtFixed1 ((f.sizeBytes : ℚ) / (1024 * 1024)) ++
      "MB > " ++ toString maxSizeMb ++ "MB limit")
  else (true, "")

theorem validate_eq_notFound (f : FileInfo) (m : ℕ) (a : Option (List String))
    (hp : f.present = false) :
    validate_audio_file f m a = (false, "File not found: " ++ f.path) := by
  unfold validate_audio_file
  rw [if_pos hp]

theorem validate_eq_unsupported (f : FileInfo) (m : ℕ) (a : Option (List String))
    (hp : f.present = true)
    (hext : (a.getD (AUDIO_FORMATS.map Prod.fst)).contains (pyLower f.suffix) = false) :
    validate_audio_file f m a =
      (false, "Unsupported format: " ++ pyLower f.suffix ++ ". Allowed: " ++
        toString (a.getD (AUDIO_FORMATS.map Prod.fst))) := by
  unfold validate_audio_file
  rw [if_neg (by simp [hp]), if_pos hext]

theorem validate_eq_tooLarge (f : FileInfo) (m : ℕ) (a : Option (List String))
    (hp : f.present = true)
    (hext : (a.getD (AUDIO_FORMATS.map Prod.fst)).contains (pyLower f.suffix) = true)
    (hsize : (m : ℚ) < (f.sizeBytes : ℚ) / (1024 * 1024)) :
    validate_audio_file f m a =
      (false, "File too large: " ++ fmtFixed1 ((f.sizeBytes : ℚ) / (1024 * 1024)) ++
        "MB > " ++ toString m ++ "MB limit") := by
  unfold validate_audio_file
  rw [if_neg (by simp [hp]), if_neg (by rw [hext]; simp), if_pos hsize]

theorem validate_eq_ok (f : FileInfo) (m : ℕ) (a : Option (List String))
    (hp : f.present = true)
    (hext : (a.getD (AUDIO_FORMATS.map Prod.fst)).contains (pyLower f.suffix) = true)
    (hsize : (f.sizeBytes : ℚ) / (1024 * 1024) ≤ m) :
    validate_audio_file f m a = (true, "") := by
  unfold validate_audio_file
  rw [if_neg (by simp [hp]), if_neg (by rw [hext]; simp), if_neg (not_lt.mpr hsize)]


/-- C7 counterexample: the extension comparison is not case-insensitive on
the allowed set: a file with suffix `".WAV"` and allowed list `[".WAV"]`
matches case-insensitively, yet `validate_audio_file` rejects it, because
only the file's suffix is lowercased and then compared literally. -/
theorem validate_audio_file_counterexample :
    ([".WAV"].any fun a => pyLower a == pyLower ".WAV") = true ∧
    (validate_audio_file ⟨true, "x.WAV", ".WAV", 0⟩ 50 (some [".WAV"])).1 = false := by
  constructor
  · decide
  · rw [validate_eq_unsupported ⟨true, "x.WAV", ".WAV", 0⟩ 50 (some [".WAV"]) rfl (by decide)]

/-- C7 (amended): `validate` checks, in order and short-circuiting: (1) the
path exists, (2) the file's extension *lowercased* is a literal member of
the allowed list (case-insensitive in the file's extension; the allowed
entries are matched exactly — the default allowed set is all-lowercase),
(3) file size ≤ the limit.  It never raises (it is a total function),
returns `(true, "")` iff all three checks pass, and for an oversized file
the reason mentions both the measured size and the limit. -/
theorem validate_audio_file_spec (f : FileInfo) (maxSizeMb : ℕ)
    (allowedFormats : Option (List String)) :
    ((validate_audio_file f maxSizeMb allowedFormats).1 = true ↔
      (f.present = true ∧
       (allowedFormats.getD (AUDIO_FORMATS.map Prod.fst)).contains (pyLower f.suffix) = true ∧
       (f.sizeBytes : ℚ) / (1024 * 1024) ≤ maxSizeMb)) ∧
    ((validate_audio_file f maxSizeMb allowedFormats).1 = true →
      (validate_audio_file f maxSizeMb allowedFormats).2 = "") ∧
    (f.present = false →
      validate_audio_file f maxSizeMb allowedFormats =
        (false, "File not found: " ++ f.path)) ∧
    (f.present = true →
      (allowedFormats.getD (AUDIO_FORMATS.map Prod.fst)).contains (pyLower f.suffix) = false →
      validate_audio_file f maxSizeMb allowedFormats =
        (false, "Unsupported format: " ++ pyLower f.suffix ++ ". Allowed: " ++
          toString (allowedFormats.getD (AUDIO_FORMATS.map Prod.fst)))) ∧
    (f.present = true →
      (allowedFormats.getD (AUDIO_FORMATS.map Prod.fst)).contains (pyLower f.suffix) = true →
      (maxSizeMb : ℚ) < (f.sizeBytes : ℚ) / (1024 * 1024) →
      ∃ pre post, (validate_audio_file f maxSizeMb allowedFormats).2 =
        pre ++ fmtFixed1 ((f.sizeBytes : ℚ) / (1024 * 1024)) ++
          "MB > " ++ toString maxSizeMb ++ post) := by
  refine ⟨?_, ?_, validate_eq_notFound f maxSizeMb allowedFormats,
    validate_eq_unsupported f maxSizeMb allowedFormats, ?_⟩
  · constructor
    · intro hv
      cases hp : f.present with
      | false => rw [validate_eq_notFound f maxSizeMb allowedFormats hp] at hv; simp at hv
      | true =>
        cases hext : (allowedFormats.getD (AUDIO_FORMATS.map Prod.fst)).contains
            (pyLower f.suffix) with
        | false =>
          rw [validate_eq_unsupported f maxSizeMb allowedFormats hp hext] at hv
          simp at hv
        | true =>
          rcases lt_or_le ((maxSizeMb : ℚ)) ((f.sizeBytes : ℚ) / (1024 * 1024)) with hsz | hsz
          · rw [validate_eq_tooLarge f maxSizeMb allowedFormats hp hext hsz] at hv
            simp at hv
          · exact ⟨rfl, rfl, hsz⟩
    · rintro ⟨hp, hext, hsz⟩
      rw [validate_eq_ok f maxSizeMb allowedFormats hp hext hsz]
  · intro hv
    cases hp : f.present with
    | false => rw [validate_eq_notFound f maxSizeMb allowedFormats hp] at hv ⊢; simp at hv
    | true =>
      cases hext : (allowedFormats.getD (AUDIO_FORMATS.map Prod.fst)).contains
          (pyLower f.suffix) with
      | false =>
        rw [validate_eq_unsupported f maxSizeMb allowedFormats hp hext] at hv
        simp at hv
      | true =>
        rcases lt_or_le ((maxSizeMb : ℚ)) ((f.sizeBytes : ℚ) / (1024 * 1024)) with hsz | hsz
        · rw [validate_eq_tooLarge f maxSizeMb allowedFormats hp hext hsz] at hv
          simp at hv
        · rw [validate_eq_ok f maxSizeMb allowedFormats hp hext hsz]
  · intro hp hext hsz
    exact ⟨"File too large: ", "MB limit",
      by rw [validate_eq_tooLarge f maxSizeMb allowedFormats hp hext hsz]⟩

/-- C7 witness: a present 100 MB `.wav` file against the default formats
and a 50 MB limit is rejected with a reason mentioning both the measured
size and the limit; the same file of 1 MB validates. -/
theorem validate_audio_file_spec_witness :
    (∃ pre post,
      (validate_audio_file ⟨true, "big.wav", ".wav", 104857600⟩ 50 none).2 =
        pre ++ fmtFixed1 ((104857600 : ℚ) / (1024 * 1024)) ++
          "MB > " ++ toString 50 ++ post) ∧
    (validate_audio_file ⟨true, "small.wav", ".wav", 1048576⟩ 50 none).1 = true := by
  constructor
  · exact (validate_audio_file_spec ⟨true, "big.wav", ".wav", 104857600⟩ 50 none).2.2.2.2
      rfl (by decide) (by norm_num)
  · exact ((validate_audio_file_spec ⟨true, "small.wav", ".wav", 1048576⟩ 50 none).1).mpr
      ⟨rfl, by decide, by norm_num⟩

/-! ## `convert_to_wav`, `_convert_with_scipy`, `get_audio_duration`
(`audio_utils.py`)

The `subprocess.run` invocation of ffmpeg is abstracted into an
`FfmpegOutcome`; the scipy/soundfile fallback and the duration readers
become `Except`-valued parameters.  The exception strings raised by the
source are modelled by a structured `ConvError` (the source wraps them all
into `AudioProcessingError`). -/

/-- Outcome of the external `ffmpeg` invocation: normal exit, non-zero exit
code, `subprocess.TimeoutExpired` (60 s), or `FileNotFoundError` because
the binary is absent. -/
inductive FfmpegOutcome where
  | success : FfmpegOutcome
  | exitNonzero (stderr : String) : FfmpegOutcome
  | timedOut : FfmpegOutcome
  | binaryMissing : FfmpegOutcome
  deriving DecidableEq

/-- The `AudioProcessingError` raised by `convert_to_wav`, by cause. -/
inductive ConvError where
  | ffmpeg (stderr : String) : ConvError
  | timedOut : ConvError
  | scipy (msg : String) : ConvError
  deriving DecidableEq

/-- `get_audio_duration(file_path)`: try the `soundfile` reader when the
library imports, otherwise the `scipy.io.wavfile` reader (duration
`len(data) / sample_rate`); any failure is swallowed and `0.0` returned.
(A zero `sample_rate` in the wav fallback raises `ZeroDivisionError` in
Python, also caught and turned into `0.0`; division by zero in `ℚ` is `0`,
which coincides.) -/
def get_audio_duration (sfAvailable : Bool) (sfDuration : Except String ℚ)
    (wavRead : Except String (ℕ × ℕ)) : ℚ :=
  if sfAvailable then
    match sfDuration with
    | .ok d => d
    | .error _ => 0
  else
    match wavRead with
    | .ok (sampleRate, dataLen) => (dataLen : ℚ) / (sampleRate : ℚ)
    | .error _ => 0

/-- `convert_to_wav(input_path, ...)`: run ffmpeg; a non-zero exit code or
a timeout raises (no fallback); a missing binary falls back to
`_convert_with_scipy`; on success the duration of the produced file is
measured with `get_audio_duration`.  The returned `Bool` records whether
the scipy fallback path ran. -/
def convert_to_wav (ff : FfmpegOutcome) (scipyConv : Except String Unit)
    (sfAvailable : Bool) (sfDuration : Except String ℚ)
    (wavRead : Except String (ℕ × ℕ)) : Bool × Except ConvError ℚ :=
  match ff with
  | .success => (false, .ok (get_audio_duration sfAvailable sfDuration wavRead))
  | .exitNonzero stderr => (false, .error (.ffmpeg stderr))
  | .timedOut => (false, .error .timedOut)
  | .binaryMissing =>
    match scipyConv with
    | .ok _ => (true, .ok (get_audio_duration sfAvailable sfDuration wavRead))
    | .error e => (true, .error (.scipy e))

/-- C9: a non-zero ffmpeg exit code or a 60 s timeout raises a conversion
error for that call without running the scipy fallback (whatever the
fallback would have done), while a missing ffmpeg binary triggers the
library-based fallback instead of failing: when the fallback succeeds the
call returns normally, and its error, not a missing-binary error, is
surfaced otherwise. -/
theorem convert_to_wav_error_vs_fallback :
    (∀ (stderr : String) (scipyConv : Except String Unit) (sfA : Bool)
        (sfD : Except String ℚ) (wr : Except String (ℕ × ℕ)),
      convert_to_wav (.exitNonzero stderr) scipyConv sfA sfD wr =
        (false, .error (.ffmpeg stderr))) ∧
    (∀ (scipyConv : Except String Unit) (sfA : Bool) (sfD : Except String ℚ)
        (wr : Except String (ℕ × ℕ)),
      convert_to_wav .timedOut scipyConv sfA sfD wr = (false, .error .timedOut)) ∧
    (∀ (sfA : Bool) (sfD : Except String ℚ) (wr : Except String (ℕ × ℕ)),
      convert_to_wav .binaryMissing (.ok ()) sfA sfD wr =
        (true, .ok (get_audio_duration sfA sfD wr))) ∧
    (∀ (e : String) (sfA : Bool) (sfD : Except String ℚ) (wr : Except String (ℕ × ℕ)),
      convert_to_wav .binaryMissing (.error e) sfA sfD wr =
        (true, .error (.scipy e))) :=
  ⟨fun _ _ _ _ _ => rfl, fun _ _ _ _ => rfl, fun _ _ _ => rfl, fun _ _ _ _ => rfl⟩

/-- C10: `get_audio_duration` never raises — on any unreadable or
undecodable audio it returns `0.0` (whichever reader path was taken) — and
therefore `convert_to_wav` can report a successful conversion whose
returned duration is `0.0`: the duration-measurement failure is swallowed,
not surfaced. -/
theorem get_audio_duration_swallows_errors :
    (∀ (e : String) (wr : Except String (ℕ × ℕ)),
      get_audio_duration true (.error e) wr = 0) ∧
    (∀ (sfD : Except String ℚ) (e : String),
      get_audio_duration false sfD (.error e) = 0) ∧
    (∀ (e : String) (scipyConv : Except String Unit) (wr : Except String (ℕ × ℕ)),
      convert_to_wav .success scipyConv true (.error e) wr = (false, .ok 0)) ∧
    (∀ (sfD : Except String ℚ) (e : String) (scipyConv : Except String Unit),
      convert_to_wav .success scipyConv false sfD (.error e) = (false, .ok 0)) :=
  ⟨fun _ _ => rfl, fun _ _ => rfl, fun _ _ _ => rfl, fun _ _ _ => rfl⟩

/-! ## `SentimentService.analyze` / `analyze_with_all_scores`
(`sentiment_service.py`)

The transformer pipeline is opaque: its output for a text is a list of
`(label, score)` records, passed in as a parameter.  Python dicts are
association lists with insertion order and overwrite-on-assignment. -/

/-- Modelled from the spec: `app.models.schemas.SentimentLabel` is not under
`src/`; the spec fixes the closed label set
{joy, sadness, anger, fear, love, surprise, neutral}. -/
inductive SentimentLabel where
  | joy | sadness | anger | fear | love | surprise | neutral
  deriving DecidableEq, Fintype

/-- Iteration order of `for label in SentimentLabel` (declaration order of
the seven members). -/
def SentimentLabel.all : List SentimentLabel :=
  [.joy, .sadness, .anger, .fear, .love, .surprise, .neutral]

theorem SentimentLabel.mem_all (l : SentimentLabel) : l ∈ SentimentLabel.all := by
  cases l <;> simp [SentimentLabel.all]

theorem SentimentLabel.all_nodup : SentimentLabel.all.Nodup := by
  simp [SentimentLabel.all]

theorem SentimentLabel.length_all : SentimentLabel.all.length = 7 := rfl

/-- `SentimentService.EMOTION_MAPPING`: raw model labels to the enum. -/
def EMOTION_MAPPING : List (String × SentimentLabel) :=
  [("joy", .joy), ("sadness", .sadness), ("anger", .anger),
   ("fear", .fear), ("love", .love), ("surprise", .surprise)]

/-- `EMOTION_MAPPING.get(label, SentimentLabel.NEUTRAL)`. -/
def emotionMap (s : String) : SentimentLabel :=
  (EMOTION_MAPPING.lookup s).getD .neutral

/-- Python `not text or not text.strip()`: empty or whitespace-only. -/
def isBlank (s : String) : Bool :=
  s.data.all (fun c => c.isWhitespace)

/-- Python dict assignment `m[k] = v`: overwrite in place if the key is
present, else append at the end (insertion order). -/
def dictInsert {κ : Type} [BEq κ] (m : List (κ × ℚ)) (k : κ) (v : ℚ) :
    List (κ × ℚ) :=
  if m.any (fun p => p.1 == k) then
    m.map (fun p => if p.1 == k then (k, v) else p)
  else
    m ++ [(k, v)]

/-- The loop `for result in results: all_scores[mapped] = score` of
`analyze_with_all_scores`. -/
def rawScores (results : List (String × ℚ)) : List (SentimentLabel × ℚ) :=
  results.foldl (fun m r => dictInsert m (emotionMap r.1) r.2) []

/-- The loop `for label in SentimentLabel: if label not in all_scores:
all_scores[label] = 0.0`. -/
def fillMissing (m : List (SentimentLabel × ℚ)) : List (SentimentLabel × ℚ) :=
  SentimentLabel.all.foldl
    (fun m l => if m.any (fun p => p.1 == l) then m else m ++ [(l, 0)]) m

/-- `if not self._model_loaded: self.load_model()` at the top of both entry
points: a no-op when loaded, otherwise the outcome of the load. -/
def ensureLoaded (modelLoaded : Bool) (loadResult : Except String Unit) :
    Except String Unit :=
  if modelLoaded then .ok () else loadResult

/-- `SentimentService.analyze_with_all_scores(text)`. -/
def analyzeWithAllScores (modelLoaded : Bool) (loadResult : Except String Unit)
    (results : List (String × ℚ)) (text : String) :
    Except String (List (SentimentLabel × ℚ)) :=
  match ensureLoaded modelLoaded loadResult with
  | .error e => .error e
  | .ok _ =>
    if isBlank text then .ok (SentimentLabel.all.map (fun l => (l, 0)))
    else .ok (fillMissing (rawScores results))

/-- `SentimentService.analyze(text)`: sort the raw results by descending
score (stable), build the raw-label score dict, pick the first key with the
maximal value (`max(scores, key=scores.get)`), map it through
`EMOTION_MAPPING` with default `NEUTRAL`. -/
def analyze (modelLoaded : Bool) (loadResult : Except String Unit)
    (results : List (String × ℚ)) (text : String) :
    Except String (SentimentLabel × ℚ) :=
  match ensureLoaded modelLoaded loadResult with
  | .error e => .error e
  | .ok _ =>
    if isBlank text then .error "Input text cannot be empty"
    else
      let sorted := results.mergeSort (fun a b => b.2 ≤ a.2)
      let scores := sorted.foldl (fun m r => dictInsert m r.1 r.2)
        ([] : List (String × ℚ))
      match scores with
      | [] => .ok (emotionMap "neutral", 1)
      | p :: rest =>
        let dominant := rest.foldl (fun best q => if best.2 < q.2 then q else best) p
        .ok (emotionMap dominant.1, dominant.2)

theorem dictInsert_mem {κ : Type} [BEq κ] [LawfulBEq κ]
    {m : List (κ × ℚ)} {k : κ} {v : ℚ} {p : κ × ℚ}
    (hp : p ∈ dictInsert m k v) : p = (k, v) ∨ p ∈ m := by
  unfold dictInsert at hp
  split at hp
  · rcases List.mem_map.mp hp with ⟨q, hq, hpq⟩
    by_cases hqk : q.1 == k
    · left
      rw [if_pos hqk] at hpq
      exact hpq.symm
    · right
      rw [if_neg hqk] at hpq
      exact hpq ▸ hq
  · rcases List.mem_append.mp hp with h | h
    · exact Or.inr h
    · exact Or.inl (List.mem_singleton.mp h)

theorem dictInsert_keys_subset {κ : Type} [BEq κ] [LawfulBEq κ]
    {m : List (κ × ℚ)} {k : κ} {v : ℚ} {k' : κ}
    (hk : k' ∈ (dictInsert m k v).map Prod.fst) :
    k' = k ∨ k' ∈ m.map Prod.fst := by
  rcases List.mem_map.mp hk with ⟨p, hp, hpk⟩
  rcases dictInsert_mem hp with h | h
  · left
    rw [h] at hpk
    exact hpk.symm ▸ rfl
  · right
    exact List.mem_map.mpr ⟨p, h, hpk⟩

theorem dictInsert_update_keys {κ : Type} [BEq κ] [LawfulBEq κ]
    (m : List (κ × ℚ)) (k : κ) (v : ℚ) :
    (m.map (fun p => if p.1 == k then (k, v) else p)).map Prod.fst = m.map Prod.fst := by
  rw [List.map_map]
  apply List.map_congr_left
  intro p _
  by_cases h : p.1 == k
  · simp only [Function.comp_apply, if_pos h]
    exact (eq_of_beq h).symm
  · simp only [Function.comp_apply, if_neg h]

theorem dictInsert_keys_nodup {κ : Type} [BEq κ] [LawfulBEq κ]
    {m : List (κ × ℚ)} {k : κ} {v : ℚ}
    (h : (m.map Prod.fst).Nodup) : ((dictInsert m k v).map Prod.fst).Nodup := by
  unfold dictInsert
  split
  · rw [dictInsert_update_keys]
    exact h
  · next hany =>
    rw [List.map_append]
    simp only [List.map_cons, List.map_nil]
    rw [List.nodup_append]
    refine ⟨h, List.nodup_singleton k, ?_⟩
    intro a ha hb
    simp only [List.mem_singleton] at hb
    subst hb
    rcases List.mem_map.mp ha with ⟨p, hp, hpk⟩
    have hcontr : (m.any fun q => q.1 == a) = true :=
      List.any_eq_true.mpr ⟨p, hp, beq_iff_eq.mpr hpk⟩
    exact absurd hcontr hany

theorem dictInsert_mem_keys {κ : Type} [BEq κ] [LawfulBEq κ]
    (m : List (κ × ℚ)) (k : κ) (v : ℚ) :
    k ∈ (dictInsert m k v).map Prod.fst := by
  unfold dictInsert
  split
  · next hany =>
    rcases List.any_eq_true.mp hany with ⟨p, hp, hpk⟩
    rw [dictInsert_update_keys]
    exact List.mem_map.mpr ⟨p, hp, eq_of_beq hpk⟩
  · rw [List.map_append]
    simp

theorem dictInsert_keys_mono {κ : Type} [BEq κ] [LawfulBEq κ]
    {m : List (κ × ℚ)} (k : κ) (v : ℚ) {k' : κ}
    (hk : k' ∈ m.map Prod.fst) : k' ∈ (dictInsert m k v).map Prod.fst := by
  unfold dictInsert
  split
  · rw [dictInsert_update_keys]
    exact hk
  · rw [List.map_append]
    exact List.mem_append_left _ hk

theorem foldl_dictInsert_mem (rs : List (String × ℚ)) (m : List (SentimentLabel × ℚ))
    (p : SentimentLabel × ℚ)
    (hp : p ∈ rs.foldl (fun m r => dictInsert m (emotionMap r.1) r.2) m) :
    p ∈ m ∨ ∃ r ∈ rs, emotionMap r.1 = p.1 ∧ r.2 = p.2 := by
  induction rs generalizing m with
  | nil => exact Or.inl hp
  | cons r t ih =>
    rcases ih _ hp with h1 | h1
    · rcases dictInsert_mem h1 with h2 | h2
      · right
        exact ⟨r, List.mem_cons_self r t, by rw [h2]; exact ⟨rfl, rfl⟩⟩
      · exact Or.inl h2
    · rcases h1 with ⟨r', hr', h3⟩
      exact Or.inr ⟨r', List.mem_cons_of_mem r hr', h3⟩

theorem foldl_dictInsert_nodup (rs : List (String × ℚ)) (m : List (SentimentLabel × ℚ))
    (h : (m.map Prod.fst).Nodup) :
    ((rs.foldl (fun m r => dictInsert m (emotionMap r.1) r.2) m).map Prod.fst).Nodup := by
  induction rs generalizing m with
  | nil => exact h
  | cons r t ih => exact ih _ (dictInsert_keys_nodup h)

theorem rawScores_mem {rs : List (String × ℚ)} {p : SentimentLabel × ℚ}
    (hp : p ∈ rawScores rs) : ∃ r ∈ rs, emotionMap r.1 = p.1 ∧ r.2 = p.2 := by
  rcases foldl_dictInsert_mem rs [] p hp with h | h
  · exact absurd h (List.not_mem_nil p)
  · exact h

theorem rawScores_keys_nodup (rs : List (String × ℚ)) :
    ((rawScores rs).map Prod.fst).Nodup :=
  foldl_dictInsert_nodup rs [] List.nodup_nil

theorem rawScores_keys_mem {rs : List (String × ℚ)} {k : SentimentLabel}
    (hk : k ∈ (rawScores rs).map Prod.fst) : ∃ r ∈ rs, emotionMap r.1 = k := by
  rcases List.mem_map.mp hk with ⟨p, hp, hpk⟩
  rcases rawScores_mem hp with ⟨r, hr, h1, _⟩
  exact ⟨r, hr, h1.trans hpk⟩

theorem foldl_fill_mem (ls : List SentimentLabel) (m : List (SentimentLabel × ℚ))
    (p : SentimentLabel × ℚ)
    (hp : p ∈ ls.foldl
      (fun m l => if m.any (fun q => q.1 == l) then m else m ++ [(l, (0 : ℚ))]) m) :
    p ∈ m ∨ p.2 = 0 := by
  induction ls generalizing m with
  | nil => exact Or.inl hp
  | cons a t ih =>
    rcases ih _ hp with h1 | h1
    · dsimp only at h1
      split at h1
      · exact Or.inl h1
      · rcases List.mem_append.mp h1 with h2 | h2
        · exact Or.inl h2
        · right
          rw [List.mem_singleton.mp h2]
    · exact Or.inr h1

theorem foldl_fill_mono (ls : List SentimentLabel) (m : List (SentimentLabel × ℚ))
    (p : SentimentLabel × ℚ) (hp : p ∈ m) :
    p ∈ ls.foldl
      (fun m l => if m.any (fun q => q.1 == l) then m else m ++ [(l, (0 : ℚ))]) m := by
  induction ls generalizing m with
  | nil => exact hp
  | cons a t ih =>
    apply ih
    dsimp only
    split
    · exact hp
    · exact List.mem_append_left _ hp

theorem foldl_fill_keys_mono (ls : List SentimentLabel) (m : List (SentimentLabel × ℚ))
    (k : SentimentLabel) (hk : k ∈ m.map Prod.fst) :
    k ∈ (ls.foldl
      (fun m l => if m.any (fun q => q.1 == l) then m else m ++ [(l, (0 : ℚ))]) m).map
        Prod.fst := by
  rcases List.mem_map.mp hk with ⟨p, hp, hpk⟩
  exact List.mem_map.mpr ⟨p, foldl_fill_mono ls m p hp, hpk⟩

theorem foldl_fill_mem_keys (ls : List SentimentLabel) (m : List (SentimentLabel × ℚ))
    (l : SentimentLabel) (hl : l ∈ ls) :
    l ∈ (ls.foldl
      (fun m l => if m.any (fun q => q.1 == l) then m else m ++ [(l, (0 : ℚ))]) m).map
        Prod.fst := by
  induction ls generalizing m with
  | nil => exact absurd hl (List.not_mem_nil l)
  | cons a t ih =>
    rw [List.foldl_cons]
    rcases List.mem_cons.mp hl with h | h
    · subst h
      apply foldl_fill_keys_mono
      dsimp only
      split
      · next hany =>
        rcases List.any_eq_true.mp hany with ⟨q, hq, hql⟩
        exact List.mem_map.mpr ⟨q, hq, eq_of_beq hql⟩
      · rw [List.map_append]
        simp
    · exact ih _ h

theorem foldl_fill_keys_nodup (ls : List SentimentLabel) (m : List (SentimentLabel × ℚ))
    (h : (m.map Prod.fst).Nodup) :
    ((ls.foldl
      (fun m l => if m.any (fun q => q.1 == l) then m else m ++ [(l, (0 : ℚ))]) m).map
        Prod.fst).Nodup := by
  induction ls generalizing m with
  | nil => exact h
  | cons a t ih =>
    rw [List.foldl_cons]
    apply ih
    dsimp only
    split
    · exact h
    · next hany =>
      rw [List.map_append]
      simp only [List.map_cons, List.map_nil]
      rw [List.nodup_append]
      refine ⟨h, List.nodup_singleton a, ?_⟩
      intro k hk hk2
      simp only [List.mem_singleton] at hk2
      subst hk2
      rcases List.mem_map.mp hk with ⟨q, hq, hqk⟩
      have hcontr : (m.any fun q => q.1 == k) = true :=
        List.any_eq_true.mpr ⟨q, hq, beq_iff_eq.mpr hqk⟩
      exact absurd hcontr hany

theorem step_fill_keys {m : List (SentimentLabel × ℚ)} {a k : SentimentLabel}
    (hk : k ∈ ((if m.any (fun q => q.1 == a) then m
        else m ++ [(a, (0 : ℚ))]).map Prod.fst)) :
    k ∈ m.map Prod.fst ∨ k = a := by
  split at hk
  · exact Or.inl hk
  · rw [List.map_append] at hk
    rcases List.mem_append.mp hk with h | h
    · exact Or.inl h
    · simp only [List.map_cons, List.map_nil, List.mem_singleton] at h
      exact Or.inr h

theorem foldl_fill_zero_of_missing (ls : List SentimentLabel)
    (m : List (SentimentLabel × ℚ)) (l : SentimentLabel)
    (hnd : ls.Nodup) (hl : l ∈ ls) (hm : l ∉ m.map Prod.fst) :
    (l, (0 : ℚ)) ∈ ls.foldl
      (fun m l => if m.any (fun q => q.1 == l) then m else m ++ [(l, (0 : ℚ))]) m := by
  induction ls generalizing m with
  | nil => exact absurd hl (List.not_mem_nil l)
  | cons a t ih =>
    rw [List.foldl_cons]
    rcases List.mem_cons.mp hl with h | h
    · subst h
      have hany : (m.any fun q => q.1 == l) = false := by
        rw [List.any_eq_false]
        intro q hq
        intro hql
        exact hm (List.mem_map.mpr ⟨q, hq, eq_of_beq hql⟩)
      apply foldl_fill_mono
      dsimp only
      rw [hany]
      simp
    · have hne : l ≠ a := by
        intro he
        subst he
        exact (List.nodup_cons.mp hnd).1 h
      refine ih _ (List.nodup_cons.mp hnd).2 h ?_
      intro hk
      rcases step_fill_keys hk with h2 | h2
      · exact hm h2
      · exact hne h2

theorem keys_length_seven (m : List (SentimentLabel × ℚ))
    (hnd : (m.map Prod.fst).Nodup)
    (hall : ∀ l : SentimentLabel, l ∈ m.map Prod.fst) : m.length = 7 := by
  have h1 : m.length = (m.map Prod.fst).length := (List.length_map _ _).symm
  have h2 : (m.map Prod.fst).toFinset.card = (m.map Prod.fst).length :=
    List.toFinset_card_of_nodup hnd
  have h3 : (m.map Prod.fst).toFinset = Finset.univ :=
    Finset.eq_univ_iff_forall.mpr (fun l => List.mem_toFinset.mpr (hall l))
  have h4 : Fintype.card SentimentLabel = 7 := rfl
  rw [h1, ← h2, h3, ← h4]
  rfl

/-- C3 counterexample: on non-empty text with a single raw result
`("joy", 0.9)`, `analyze_with_all_scores` returns a distribution with
*seven* keys — one per member of the fixed label set
{joy, sadness, anger, fear, love, surprise, neutral} — not six. -/
theorem analyzeWithAllScores_counterexample :
    ((analyzeWithAllScores true (.ok ()) [("joy", 9/10)] "hi").toOption.getD []).map
        Prod.fst = SentimentLabel.all ∧
    ((analyzeWithAllScores true (.ok ()) [("joy", 9/10)] "hi").toOption.getD []).length
      = 7 := by
  constructor
  · decide
  · decide

/-- C3 (amended): for every non-empty, non-whitespace input text on a
loaded service, and raw model scores in `[0,1]`, `analyze_with_all_scores`
returns a distribution with exactly 7 keys — one per label of the fixed
emotion set {joy, sadness, anger, fear, love, surprise, neutral} — each
with a value in `[0,1]`; any raw model label absent from the fixed mapping
is mapped to `neutral`, and any fixed-set label the model omits is present
with value `0.0`. -/
theorem analyzeWithAllScores_spec (loadResult : Except String Unit)
    (results : List (String × ℚ)) (text : String)
    (hblank : isBlank text = false)
    (hscores : ∀ r ∈ results, 0 ≤ r.2 ∧ r.2 ≤ 1) :
    ∃ m, analyzeWithAllScores true loadResult results text = .ok m ∧
      (m.map Prod.fst).Nodup ∧
      (∀ l : SentimentLabel, l ∈ m.map Prod.fst) ∧
      m.length = 7 ∧
      (∀ p ∈ m, 0 ≤ p.2 ∧ p.2 ≤ 1) ∧
      (∀ l : SentimentLabel, (∀ r ∈ results, emotionMap r.1 ≠ l) → (l, 0) ∈ m) ∧
      (∀ s : String, EMOTION_MAPPING.lookup s = none → emotionMap s = .neutral) := by
  refine ⟨fillMissing (rawScores results), ?_, ?_, ?_, ?_, ?_, ?_, ?_⟩
  · simp [analyzeWithAllScores, ensureLoaded, hblank]
  · exact foldl_fill_keys_nodup _ _ (rawScores_keys_nodup results)
  · intro l
    exact foldl_fill_mem_keys _ _ l (SentimentLabel.mem_all l)
  · apply keys_length_seven
    · exact foldl_fill_keys_nodup _ _ (rawScores_keys_nodup results)
    · intro l
      exact foldl_fill_mem_keys _ _ l (SentimentLabel.mem_all l)
  · intro p hp
    rcases foldl_fill_mem _ _ p hp with h | h
    · rcases rawScores_mem h with ⟨r, hr, _, hval⟩
      rw [← hval]
      exact hscores r hr
    · rw [h]
      norm_num
  · intro l hl
    apply foldl_fill_zero_of_missing _ _ _ SentimentLabel.all_nodup (SentimentLabel.mem_all l)
    intro hk
    rcases rawScores_keys_mem hk with ⟨r, hr, he⟩
    exact hl r hr he
  · intro s hs
    unfold emotionMap
    rw [hs]
    rfl

/-- C3 witness: text `"hi"` with raw results `("joy", 0.9)` and an
unrecognised label `("zzz", 0.5)` yields a 7-key distribution satisfying
all the amended properties. -/
theorem analyzeWithAllScores_spec_witness :
    ∃ m, analyzeWithAllScores true (.ok ()) [("joy", 9/10), ("zzz", 1/2)] "hi" = .ok m ∧
      (m.map Prod.fst).Nodup ∧
      (∀ l : SentimentLabel, l ∈ m.map Prod.fst) ∧
      m.length = 7 ∧
      (∀ p ∈ m, 0 ≤ p.2 ∧ p.2 ≤ 1) ∧
      (∀ l : SentimentLabel,
        (∀ r ∈ ([("joy", 9/10), ("zzz", 1/2)] : List (String × ℚ)), emotionMap r.1 ≠ l) →
        (l, 0) ∈ m) ∧
      (∀ s : String, EMOTION_MAPPING.lookup s = none → emotionMap s = .neutral) := by
  apply analyzeWithAllScores_spec (.ok ()) [("joy", 9/10), ("zzz", 1/2)] "hi"
  · decide
  · intro r hr
    rcases List.mem_cons.mp hr with h | h
    · rw [h]
      norm_num
    · rw [List.mem_singleton.mp h]
      norm_num

/-- C5: on a loaded service, for every empty or whitespace-only input text,
`analyze` raises the input error (it does not return a result), while
`analyze_with_all_scores` on the same input returns, without raising, the
distribution mapping every label of the fixed set to `0.0` — the two entry
points deliberately differ on empty input. -/
theorem empty_text_asymmetry (loadResult : Except String Unit)
    (results : List (String × ℚ)) (text : String)
    (hblank : isBlank text = true) :
    analyze true loadResult results text = .error "Input text cannot be empty" ∧
    analyzeWithAllScores true loadResult results text =
      .ok (SentimentLabel.all.map (fun l => (l, 0))) := by
  constructor
  · simp [analyze, ensureLoaded, hblank]
  · simp [analyzeWithAllScores, ensureLoaded, hblank]

/-- C5 witness: the whitespace-only text `"  "` makes `analyze` fail with
the input error while `analyze_with_all_scores` returns the all-zero
7-label distribution. -/
theorem empty_text_asymmetry_witness :
    analyze true (.ok ()) [("joy", 9/10)] "  " = .error "Input text cannot be empty" ∧
    analyzeWithAllScores true (.ok ()) [("joy", 9/10)] "  " =
      .ok (SentimentLabel.all.map (fun l => (l, 0))) :=
  empty_text_asymmetry (.ok ()) [("joy", 9/10)] "  " (by decide)

/-! ## Model lifecycle (`whisper_service.py`, `sentiment_service.py`)

`load_model`, `get_model_info` and the failure path become explicit state
transitions; the outcome of the heavyweight model instantiation is a
parameter. -/

/-- The mutable fields of `WhisperService` touched by `load_model`. -/
structure WhisperState where
  device : String
  modelLoaded : Bool
  loadTime : Option ℚ
  model : Option Unit
  deriving DecidableEq

/-- `get_model_info()` result shape: `{status: "not_loaded"}` or a loaded
snapshot. -/
inductive ModelInfo where
  | notLoaded
  | loaded (device : String) (loadTime : Option ℚ)
  deriving DecidableEq

/-- `WhisperService.load_model(force_reload)`: no-op when loaded and not
forced; otherwise resolve `"auto"` to cuda/cpu, instantiate the model
(`loadOutcome`), record the load duration and set the loaded flag — or
re-raise as a `RuntimeError` leaving the flag unset (only `device` has
been mutated). -/
def WhisperState.loadModel (st : WhisperState) (forceReload : Bool)
    (cudaAvailable : Bool) (loadOutcome : Except String Unit) (elapsed : ℚ) :
    Except String Unit × WhisperState :=
  if st.modelLoaded && !forceReload then (.ok (), st)
  else
    let device := if st.device = "auto" then (if cudaAvailable then "cuda" else "cpu")
      else st.device
    match loadOutcome with
    | .ok m =>
      (.ok (), { device := device, modelLoaded := true, loadTime := some elapsed,
                 model := some m })
    | .error e =>
      (.error ("Whisper model loading failed: " ++ e), { st with device := device })

/-- `WhisperService.get_model_info()`. -/
def WhisperState.getModelInfo (st : WhisperState) : ModelInfo :=
  if st.modelLoaded = false then .notLoaded else .loaded st.device st.loadTime

/-- `WhisperService.unload_model()`. -/
def WhisperState.unloadModel (st : WhisperState) : WhisperState :=
  if st.model.isSome then { st with model := none, modelLoaded := false } else st

/-- The mutable fields of `SentimentService` touched by `load_model`. -/
structure SentimentState where
  device : String
  tokenizer : Option Unit
  model : Option Unit
  classifier : Option Unit
  loadTime : Option ℚ
  modelLoaded : Bool
  labels : List String
  deriving DecidableEq

/-- `SentimentService.load_model(force_reload)`: tokenizer, then model,
then labels and pipeline; a failure at either stage re-raises leaving the
loaded flag unset (fields already assigned — `device`, possibly
`tokenizer` — keep their new values). -/
def SentimentState.loadModel (st : SentimentState) (forceReload : Bool)
    (cudaAvailable : Bool) (tokenizerOutcome modelOutcome : Except String Unit)
    (modelLabels : List String) (elapsed : ℚ) :
    Except String Unit × SentimentState :=
  if st.modelLoaded && !forceReload then (.ok (), st)
  else
    let device := if st.device = "auto" then (if cudaAvailable then "cuda" else "cpu")
      else st.device
    match tokenizerOutcome with
    | .error e =>
      (.error ("Sentiment model loading failed: " ++ e), { st with device := device })
    | .ok tok =>
      match modelOutcome with
      | .error e =>
        (.error ("Sentiment model loading failed: " ++ e),
         { st with device := device, tokenizer := some tok })
      | .ok m =>
        (.ok (), { device := device, tokenizer := some tok, model := some m,
                   classifier := some (), loadTime := some elapsed,
                   modelLoaded := true, labels := modelLabels })

/-- `SentimentService.get_model_info()`. -/
def SentimentState.getModelInfo (st : SentimentState) : ModelInfo :=
  if st.modelLoaded = false then .notLoaded else .loaded st.device st.loadTime

theorem WhisperState.loadModel_fail (st : WhisperState) (force cuda : Bool)
    (e : String) (t : ℚ) (hun : st.modelLoaded = false) :
    st.loadModel force cuda (.error e) t =
      (.error ("Whisper model loading failed: " ++ e),
       { st with device := if st.device = "auto" then (if cuda then "cuda" else "cpu")
           else st.device }) := by
  unfold WhisperState.loadModel
  rw [hun]
  rfl

theorem WhisperState.loadModel_ok (st : WhisperState) (force cuda : Bool) (t : ℚ)
    (hun : st.modelLoaded = false) :
    st.loadModel force cuda (.ok ()) t =
      (.ok (), { device := if st.device = "auto" then (if cuda then "cuda" else "cpu")
                   else st.device,
                 modelLoaded := true, loadTime := some t, model := some () }) := by
  unfold WhisperState.loadModel
  rw [hun]
  rfl

theorem SentimentState.loadModel_tokFail (st : SentimentState) (force cuda : Bool)
    (e : String) (modOut : Except String Unit) (labels : List String) (t : ℚ)
    (hun : st.modelLoaded = false) :
    st.loadModel force cuda (.error e) modOut labels t =
      (.error ("Sentiment model loading failed: " ++ e),
       { st with device := if st.device = "auto" then (if cuda then "cuda" else "cpu")
           else st.device }) := by
  unfold SentimentState.loadModel
  rw [hun]
  rfl

theorem SentimentState.loadModel_modFail (st : SentimentState) (force cuda : Bool)
    (e : String) (labels : List String) (t : ℚ)
    (hun : st.modelLoaded = false) :
    st.loadModel force cuda (.ok ()) (.error e) labels t =
      (.error ("Sentiment model loading failed: " ++ e),
       { st with
          device := if st.device = "auto" then (if cuda then "cuda" else "cpu") else st.device
          tokenizer := some () }) := by
  unfold SentimentState.loadModel
  rw [hun]
  rfl

theorem SentimentState.loadModel_okBoth (st : SentimentState) (force cuda : Bool)
    (labels : List String) (t : ℚ) (hun : st.modelLoaded = false) :
    st.loadModel force cuda (.ok ()) (.ok ()) labels t =
      (.ok (), { device := if st.device = "auto" then (if cuda then "cuda" else "cpu")
                   else st.device,
                 tokenizer := some (), model := some (), classifier := some (),
                 loadTime := some t, modelLoaded := true, labels := labels }) := by
  unfold SentimentState.loadModel
  rw [hun]
  rfl

/-- C6: whenever `load_model` fails (the model instantiation raises), on
either service, an error is surfaced to the caller and the loaded flag
stays `false`, so `get_model_info` afterwards reports `not_loaded` and a
subsequent load attempt can still succeed; a failed load never leaves the
service observably in the loaded state. -/
theorem load_failure_leaves_unloaded :
    (∀ (st : WhisperState) (force cuda : Bool) (e : String) (t : ℚ),
      st.modelLoaded = false →
      (st.loadModel force cuda (.error e) t).1 =
        .error ("Whisper model loading failed: " ++ e) ∧
      (st.loadModel force cuda (.error e) t).2.modelLoaded = false ∧
      (st.loadModel force cuda (.error e) t).2.getModelInfo = .notLoaded ∧
      (∀ (force' cuda' : Bool) (t' : ℚ),
        ((st.loadModel force cuda (.error e) t).2.loadModel force' cuda' (.ok ()) t').1
          = .ok () ∧
        ((st.loadModel force cuda (.error e) t).2.loadModel force' cuda'
            (.ok ()) t').2.modelLoaded = true)) ∧
    (∀ (st : SentimentState) (force cuda : Bool)
        (tokOut modOut : Except String Unit) (labels : List String) (t : ℚ),
      st.modelLoaded = false →
      ((∃ e, tokOut = .error e) ∨ (∃ e, modOut = .error e)) →
      (∃ msg, (st.loadModel force cuda tokOut modOut labels t).1 = .error msg) ∧
      (st.loadModel force cuda tokOut modOut labels t).2.modelLoaded = false ∧
      (st.loadModel force cuda tokOut modOut labels t).2.getModelInfo = .notLoaded ∧
      (∀ (force' cuda' : Bool) (labels' : List String) (t' : ℚ),
        ((st.loadModel force cuda tokOut modOut labels t).2.loadModel force' cuda'
            (.ok ()) (.ok ()) labels' t').1 = .ok () ∧
        ((st.loadModel force cuda tokOut modOut labels t).2.loadModel force' cuda'
            (.ok ()) (.ok ()) labels' t').2.modelLoaded = true)) := by
  constructor
  · intro st force cuda e t hun
    have hfst : (st.loadModel force cuda (.error e) t).1 =
        .error ("Whisper model loading failed: " ++ e) := by
      rw [WhisperState.loadModel_fail st force cuda e t hun]
    have hml2 : (st.loadModel force cuda (.error e) t).2.modelLoaded = false := by
      rw [WhisperState.loadModel_fail st force cuda e t hun]
      exact hun
    refine ⟨hfst, hml2, ?_, ?_⟩
    · simp [WhisperState.getModelInfo, hml2]
    · intro force' cuda' t'
      rw [WhisperState.loadModel_ok _ force' cuda' t' hml2]
      exact ⟨rfl, rfl⟩
  · intro st force cuda tokOut modOut labels t hun herr
    have hfail : ∃ st', (st.loadModel force cuda tokOut modOut labels t).2 = st' ∧
        st'.modelLoaded = st.modelLoaded ∧
        ∃ msg, (st.loadModel force cuda tokOut modOut labels t).1 = .error msg := by
      rcases herr with ⟨e, he⟩ | ⟨e, he⟩
      · subst he
        rw [SentimentState.loadModel_tokFail st force cuda e modOut labels t hun]
        exact ⟨_, rfl, rfl, _, rfl⟩
      · subst he
        cases tokOut with
        | error e' =>
          rw [SentimentState.loadModel_tokFail st force cuda e' (.error e) labels t hun]
          exact ⟨_, rfl, rfl, _, rfl⟩
        | ok tok =>
          rw [SentimentState.loadModel_modFail st force cuda e labels t hun]
          exact ⟨_, rfl, rfl, _, rfl⟩
    rcases hfail with ⟨st', hst', hml, msg, hmsg⟩
    have hml' : (st.loadModel force cuda tokOut modOut labels t).2.modelLoaded = false := by
      rw [hst', hml, hun]
    refine ⟨⟨msg, hmsg⟩, hml', ?_, ?_⟩
    · simp [SentimentState.getModelInfo, hml']
    · intro force' cuda' labels' t'
      rw [SentimentState.loadModel_okBoth _ force' cuda' labels' t' hml']
      exact ⟨rfl, rfl⟩

/-- C6 witness: a fresh whisper service whose model load raises keeps
`loaded = false`, reports `not_loaded`, and succeeds on retry; likewise the
sentiment service with a failing tokenizer stage reports `not_loaded`. -/
theorem load_failure_leaves_unloaded_witness :
    ((WhisperState.mk "auto" false none none).loadModel false true
        (.error "boom") 1).2.getModelInfo = .notLoaded ∧
    (((WhisperState.mk "auto" false none none).loadModel false true
        (.error "boom") 1).2.loadModel false true (.ok ()) 2).2.modelLoaded = true ∧
    ((SentimentState.mk "auto" none none none none false []).loadModel false false
        (.error "no tokenizer") (.ok ()) [] 1).2.getModelInfo = .notLoaded := by
  have h1 := load_failure_leaves_unloaded.1 (WhisperState.mk "auto" false none none)
    false true "boom" 1 rfl
  have h2 := load_failure_leaves_unloaded.2
    (SentimentState.mk "auto" none none none none false [])
    false false (.error "no tokenizer") (.ok ()) [] 1 rfl (Or.inl ⟨_, rfl⟩)
  exact ⟨h1.2.2.1, (h1.2.2.2 false true 2).2, h2.2.2.1⟩
/-! ## The `load_model` race (`whisper_service.py` / `sentiment_service.py`)

The class-level lock is used only inside `__new__` (singleton creation);
`load_model` itself takes no lock.  Two threads calling a first-time
inference on the (already constructed) singleton are modelled by a
small-step interleaving semantics; each Python statement of the load body
is a separate step, in particular the test `if self.device == "auto":`
and the assignment `self.device = "cuda" if ... else "cpu"` are two steps,
so both threads can read `"auto"` before either assigns.  Per thread:
`pc 0`: the `if self._model_loaded and not force_reload` check;
`pc 1`: the read of `self.device` in the `== "auto"` test;
`pc 2`: the device assignment (counted as a device selection);
`pc 3`: the model instantiation + `_load_time` recording + flag set;
`pc 4`: done.  A schedule is the sequence of thread choices. -/

structure RaceState where
  pc1 : ℕ
  pc2 : ℕ
  device : String
  modelLoaded : Bool
  loadCount : ℕ
  deviceSelections : ℕ
  loadTimeRecords : ℕ
  deriving DecidableEq

/-- Both threads at the start, service constructed but unloaded,
device = `"auto"`. -/
def raceInit : RaceState :=
  ⟨0, 0, "auto", false, 0, 0, 0⟩

/-- One step of the chosen thread (`true` = thread 1). -/
def loadStep (cudaAvailable : Bool) (tid : Bool) (s : RaceState) : RaceState :=
  let pc := if tid then s.pc1 else s.pc2
  let withPc := fun (s' : RaceState) (n : ℕ) =>
    if tid then { s' with pc1 := n } else { s' with pc2 := n }
  match pc with
  | 0 => if s.modelLoaded then withPc s 4 else withPc s 1
  | 1 => if s.device = "auto" then withPc s 2 else withPc s 3
  | 2 =>
    withPc { s with
      device := if cudaAvailable then "cuda" else "cpu"
      deviceSelections := s.deviceSelections + 1 } 3
  | 3 =>
    withPc { s with
      modelLoaded := true
      loadCount := s.loadCount + 1
      loadTimeRecords := s.loadTimeRecords + 1 } 4
  | _ => s

/-- Run a schedule from the initial state. -/
def raceRun (cudaAvailable : Bool) (sched : List Bool) : RaceState :=
  sched.foldl (fun s t => loadStep cudaAvailable t s) raceInit

/-- C2 counterexample: the interleaving in which both threads pass the
`_model_loaded` check and both read `device == "auto"` before either
assigns — both threads complete, yet the model is instantiated twice, the
load duration is recorded twice, and the device is selected twice.
`load_model` is not protected by any lock, so this schedule is possible. -/
theorem load_race_counterexample :
    (raceRun false [true, false, true, false, true, false, true, false]).pc1 = 4 ∧
    (raceRun false [true, false, true, false, true, false, true, false]).pc2 = 4 ∧
    (raceRun false [true, false, true, false, true, false, true, false]).loadCount = 2 ∧
    (raceRun false [true, false, true, false, true, false, true, false]).loadTimeRecords = 2 ∧
    (raceRun false [true, false, true, false, true, false, true, false]).deviceSelections = 2 := by
  decide

/-- Inductive invariant of the two-thread `load_model` interleaving. -/
def RaceInv (s : RaceState) : Prop :=
  s.pc1 ≤ 4 ∧ s.pc2 ≤ 4 ∧
  (s.device = "auto" ↔ s.deviceSelections = 0) ∧
  (s.modelLoaded = true ↔ 1 ≤ s.loadCount) ∧
  s.loadTimeRecords = s.loadCount ∧
  (s.pc1 ≠ 4 ∧ s.pc2 ≠ 4 → s.loadCount = 0) ∧
  ((s.pc1 ≠ 4 ∨ s.pc2 ≠ 4) → s.loadCount ≤ 1) ∧
  s.loadCount ≤ 2 ∧
  (s.pc1 < 3 ∧ s.pc2 < 3 → s.deviceSelections = 0) ∧
  ((s.pc1 < 3 ∨ s.pc2 < 3) → s.deviceSelections ≤ 1) ∧
  s.deviceSelections ≤ 2 ∧
  ((s.pc1 = 4 ∨ s.pc2 = 4) → s.modelLoaded = true) ∧
  ((3 ≤ s.pc1 ∨ 3 ≤ s.pc2) → 1 ≤ s.deviceSelections) ∧
  (1 ≤ s.loadCount → 1 ≤ s.deviceSelections) ∧
  (s.pc1 ≠ 3 ∧ s.pc2 ≠ 3 → s.deviceSelections ≤ s.loadCount) ∧
  ((s.pc1 ≠ 3 ∨ s.pc2 ≠ 3) → s.deviceSelections ≤ s.loadCount + 1) ∧
  s.deviceSelections ≤ s.loadCount + 2

theorem raceInv_init : RaceInv raceInit := by
  refine ⟨?_, ?_, ?_, ?_, ?_, ?_, ?_, ?_, ?_, ?_, ?_, ?_, ?_, ?_, ?_, ?_, ?_⟩ <;>
    simp [raceInit]

theorem raceInv_step (cuda tid : Bool) (s : RaceState) (h : RaceInv s) :
    RaceInv (loadStep cuda tid s) := by
  obtain ⟨h1, h2, h3, h4, h5, h6a, h6b, h6c, h7a, h7b, h7c, h8, h9, h10,
    h11a, h11b, h11c⟩ := h
  have hcuda : ¬((if cuda then "cuda" else "cpu") = "auto") := by
    cases cuda <;> simp
  cases tid with
  | true =>
    cases hpc : s.pc1 with
    | zero =>
      by_cases hml : s.modelLoaded = true
      · have hstep : loadStep cuda true s = { s with pc1 := 4 } := by
          simp [loadStep, hpc, hml]
        have hcount1 : 1 ≤ s.loadCount := h4.mp hml
        rw [hstep]
        unfold RaceInv
        dsimp only
        exact ⟨by omega, h2, h3, h4, h5,
          fun hx => absurd rfl hx.1,
          fun hor => hor.elim (fun hx => absurd rfl hx) (fun hx => h6b (Or.inr hx)),
          h6c,
          fun hx => absurd hx.1 (by omega),
          fun hor => hor.elim (fun hx => absurd hx (by omega)) (fun hx => h7b (Or.inr hx)),
          h7c,
          fun _ => hml,
          fun _ => h10 hcount1,
          h10,
          fun hx => h11a ⟨by omega, hx.2⟩,
          fun _ => h11b (Or.inl (by omega)),
          h11c⟩
      · rw [Bool.not_eq_true] at hml
        have hstep : loadStep cuda true s = { s with pc1 := 1 } := by
          simp [loadStep, hpc, hml]
        rw [hstep]
        unfold RaceInv
        dsimp only
        exact ⟨by omega, h2, h3, h4, h5,
          fun hx => h6a ⟨by omega, hx.2⟩,
          fun _ => h6b (Or.inl (by omega)),
          h6c,
          fun hx => h7a ⟨by omega, hx.2⟩,
          fun _ => h7b (Or.inl (by omega)),
          h7c,
          fun hor => hor.elim (fun hx => absurd hx (by omega)) (fun hx => h8 (Or.inr hx)),
          fun hor => h9 (hor.elim (fun hx => absurd hx (by omega)) Or.inr),
          h10,
          fun hx => h11a ⟨by omega, hx.2⟩,
          fun _ => h11b (Or.inl (by omega)),
          h11c⟩
    | succ n =>
      cases n with
      | zero =>
        by_cases hdev : s.device = "auto"
        · have hstep : loadStep cuda true s = { s with pc1 := 2 } := by
            simp [loadStep, hpc, hdev]
          rw [hstep]
          unfold RaceInv
          dsimp only
          exact ⟨by omega, h2, h3, h4, h5,
            fun hx => h6a ⟨by omega, hx.2⟩,
            fun _ => h6b (Or.inl (by omega)),
            h6c,
            fun hx => h7a ⟨by omega, hx.2⟩,
            fun _ => h7b (Or.inl (by omega)),
            h7c,
            fun hor => hor.elim (fun hx => absurd hx (by omega)) (fun hx => h8 (Or.inr hx)),
            fun hor => h9 (hor.elim (fun hx => absurd hx (by omega)) Or.inr),
            h10,
            fun hx => h11a ⟨by omega, hx.2⟩,
            fun _ => h11b (Or.inl (by omega)),
            h11c⟩
        · have hstep : loadStep cuda true s = { s with pc1 := 3 } := by
            simp [loadStep, hpc, hdev]
          have hselpos : 1 ≤ s.deviceSelections := by
            have hne := (not_iff_not.mpr h3).mp hdev
            omega
          rw [hstep]
          unfold RaceInv
          dsimp only
          exact ⟨by omega, h2, h3, h4, h5,
            fun hx => h6a ⟨by omega, hx.2⟩,
            fun _ => h6b (Or.inl (by omega)),
            h6c,
            fun hx => absurd hx.1 (by omega),
            fun hor => hor.elim (fun hx => absurd hx (by omega)) (fun hx => h7b (Or.inr hx)),
            h7c,
            fun hor => hor.elim (fun hx => absurd hx (by omega)) (fun hx => h8 (Or.inr hx)),
            fun _ => hselpos,
            h10,
            fun hx => absurd rfl hx.1,
            fun hor => hor.elim (fun hx => absurd rfl hx)
              (fun hx => by have := h11a ⟨by omega, hx⟩; omega),
            by have := h11b (Or.inl (by omega)); omega⟩
      | succ m =>
        cases m with
        | zero =>
          have hstep : loadStep cuda true s =
              { s with device := if cuda then "cuda" else "cpu"
                       deviceSelections := s.deviceSelections + 1
                       pc1 := 3 } := by
            simp [loadStep, hpc]
          have hs0 : s.deviceSelections ≤ 1 := h7b (Or.inl (by omega))
          have hsc : s.deviceSelections ≤ s.loadCount + 1 := h11b (Or.inl (by omega))
          rw [hstep]
          unfold RaceInv
          dsimp only
          exact ⟨by omega, h2,
            ⟨fun hx => absurd hx hcuda, fun hx => by omega⟩,
            h4, h5,
            fun hx => h6a ⟨by omega, hx.2⟩,
            fun _ => h6b (Or.inl (by omega)),
            h6c,
            fun hx => absurd hx.1 (by omega),
            fun hor => hor.elim (fun hx => absurd hx (by omega))
              (fun hx => by have := h7a ⟨by omega, hx⟩; omega),
            by omega,
            fun hor => hor.elim (fun hx => absurd hx (by omega)) (fun hx => h8 (Or.inr hx)),
            fun _ => by omega,
            fun _ => by omega,
            fun hx => absurd rfl hx.1,
            fun hor => hor.elim (fun hx => absurd rfl hx)
              (fun hx => by have := h11a ⟨by omega, hx⟩; omega),
            by omega⟩
        | succ k =>
          cases k with
          | zero =>
            have hstep : loadStep cuda true s =
                { s with modelLoaded := true
                         loadCount := s.loadCount + 1
                         loadTimeRecords := s.loadTimeRecords + 1
                         pc1 := 4 } := by
              simp [loadStep, hpc]
            have hc1 : s.loadCount ≤ 1 := h6b (Or.inl (by omega))
            have hsel1 : 1 ≤ s.deviceSelections := h9 (Or.inl (by omega))
            rw [hstep]
            unfold RaceInv
            dsimp only
            exact ⟨by omega, h2, h3,
              ⟨fun _ => by omega, fun _ => rfl⟩,
              by omega,
              fun hx => absurd rfl hx.1,
              fun hor => hor.elim (fun hx => absurd rfl hx)
                (fun hx => by have := h6a ⟨by omega, hx⟩; omega),
              by omega,
              fun hx => absurd hx.1 (by omega),
              fun hor => hor.elim (fun hx => absurd hx (by omega)) (fun hx => h7b (Or.inr hx)),
              h7c,
              fun _ => rfl,
              fun _ => hsel1,
              fun _ => hsel1,
              fun hx => by have := h11b (Or.inr hx.2); omega,
              fun _ => by have := h11c; omega,
              by omega⟩
          | succ j =>
            have hstep : loadStep cuda true s = s := by
              simp [loadStep, hpc]
            rw [hstep]
            exact ⟨h1, h2, h3, h4, h5, h6a, h6b, h6c, h7a, h7b, h7c, h8, h9, h10,
              h11a, h11b, h11c⟩
  | false =>
    cases hpc : s.pc2 with
    | zero =>
      by_cases hml : s.modelLoaded = true
      · have hstep : loadStep cuda false s = { s with pc2 := 4 } := by
          simp [loadStep, hpc, hml]
        have hcount1 : 1 ≤ s.loadCount := h4.mp hml
        rw [hstep]
        unfold RaceInv
        dsimp only
        exact ⟨h1, by omega, h3, h4, h5,
          fun hx => absurd rfl hx.2,
          fun hor => hor.elim (fun hx => h6b (Or.inl hx)) (fun hx => absurd rfl hx),
          h6c,
          fun hx => absurd hx.2 (by omega),
          fun hor => hor.elim (fun hx => h7b (Or.inl hx)) (fun hx => absurd hx (by omega)),
          h7c,
          fun _ => hml,
          fun _ => h10 hcount1,
          h10,
          fun hx => h11a ⟨hx.1, by omega⟩,
          fun _ => h11b (Or.inr (by omega)),
          h11c⟩
      · rw [Bool.not_eq_true] at hml
        have hstep : loadStep cuda false s = { s with pc2 := 1 } := by
          simp [loadStep, hpc, hml]
        rw [hstep]
        unfold RaceInv
        dsimp only
        exact ⟨h1, by omega, h3, h4, h5,
          fun hx => h6a ⟨hx.1, by omega⟩,
          fun _ => h6b (Or.inr (by omega)),
          h6c,
          fun hx => h7a ⟨hx.1, by omega⟩,
          fun _ => h7b (Or.inr (by omega)),
          h7c,
          fun hor => hor.elim (fun hx => h8 (Or.inl hx)) (fun hx => absurd hx (by omega)),
          fun hor => h9 (hor.elim Or.inl (fun hx => absurd hx (by omega))),
          h10,
          fun hx => h11a ⟨hx.1, by omega⟩,
          fun _ => h11b (Or.inr (by omega)),
          h11c⟩
    | succ n =>
      cases n with
      | zero =>
        by_cases hdev : s.device = "auto"
        · have hstep : loadStep cuda false s = { s with pc2 := 2 } := by
            simp [loadStep, hpc, hdev]
          rw [hstep]
          unfold RaceInv
          dsimp only
          exact ⟨h1, by omega, h3, h4, h5,
            fun hx => h6a ⟨hx.1, by omega⟩,
            fun _ => h6b (Or.inr (by omega)),
            h6c,
            fun hx => h7a ⟨hx.1, by omega⟩,
            fun _ => h7b (Or.inr (by omega)),
            h7c,
            fun hor => hor.elim (fun hx => h8 (Or.inl hx)) (fun hx => absurd hx (by omega)),
            fun hor => h9 (hor.elim Or.inl (fun hx => absurd hx (by omega))),
            h10,
            fun hx => h11a ⟨hx.1, by omega⟩,
            fun _ => h11b (Or.inr (by omega)),
            h11c⟩
        · have hstep : loadStep cuda false s = { s with pc2 := 3 } := by
            simp [loadStep, hpc, hdev]
          have hselpos : 1 ≤ s.deviceSelections := by
            have hne := (not_iff_not.mpr h3).mp hdev
            omega
          rw [hstep]
          unfold RaceInv
          dsimp only
          exact ⟨h1, by omega, h3, h4, h5,
            fun hx => h6a ⟨hx.1, by omega⟩,
            fun _ => h6b (Or.inr (by omega)),
            h6c,
            fun hx => absurd hx.2 (by omega),
            fun hor => hor.elim (fun hx => h7b (Or.inl hx)) (fun hx => absurd hx (by omega)),
            h7c,
            fun hor => hor.elim (fun hx => h8 (Or.inl hx)) (fun hx => absurd hx (by omega)),
            fun _ => hselpos,
            h10,
            fun hx => absurd rfl hx.2,
            fun hor => hor.elim
              (fun hx => by have := h11a ⟨hx, by omega⟩; omega)
              (fun hx => absurd rfl hx),
            by have := h11b (Or.inr (by omega)); omega⟩
      | succ m =>
        cases m with
        | zero =>
          have hstep : loadStep cuda false s =
              { s with device := if cuda then "cuda" else "cpu"
                       deviceSelections := s.deviceSelections + 1
                       pc2 := 3 } := by
            simp [loadStep, hpc]
          have hs0 : s.deviceSelections ≤ 1 := h7b (Or.inr (by omega))
          have hsc : s.deviceSelections ≤ s.loadCount + 1 := h11b (Or.inr (by omega))
          rw [hstep]
          unfold RaceInv
          dsimp only
          exact ⟨h1, by omega,
            ⟨fun hx => absurd hx hcuda, fun hx => by omega⟩,
            h4, h5,
            fun hx => h6a ⟨hx.1, by omega⟩,
            fun _ => h6b (Or.inr (by omega)),
            h6c,
            fun hx => absurd hx.2 (by omega),
            fun hor => hor.elim
              (fun hx => by have := h7a ⟨hx, by omega⟩; omega)
              (fun hx => absurd hx (by omega)),
            by omega,
            fun hor => hor.elim (fun hx => h8 (Or.inl hx)) (fun hx => absurd hx (by omega)),
            fun _ => by omega,
            fun _ => by omega,
            fun hx => absurd rfl hx.2,
            fun hor => hor.elim
              (fun hx => by have := h11a ⟨hx, by omega⟩; omega)
              (fun hx => absurd rfl hx),
            by omega⟩
        | succ k =>
          cases k with
          | zero =>
            have hstep : loadStep cuda false s =
                { s with modelLoaded := true
                         loadCount := s.loadCount + 1
                         loadTimeRecords := s.loadTimeRecords + 1
                         pc2 := 4 } := by
              simp [loadStep, hpc]
            have hc1 : s.loadCount ≤ 1 := h6b (Or.inr (by omega))
            have hsel1 : 1 ≤ s.deviceSelections := h9 (Or.inr (by omega))
            rw [hstep]
            unfold RaceInv
            dsimp only
            exact ⟨h1, by omega, h3,
              ⟨fun _ => by omega, fun _ => rfl⟩,
              by omega,
              fun hx => absurd rfl hx.2,
              fun hor => hor.elim
                (fun hx => by have := h6a ⟨hx, by omega⟩; omega)
                (fun hx => absurd rfl hx),
              by omega,
              fun hx => absurd hx.2 (by omega),
              fun hor => hor.elim (fun hx => h7b (Or.inl hx)) (fun hx => absurd hx (by omega)),
              h7c,
              fun _ => rfl,
              fun _ => hsel1,
              fun _ => hsel1,
              fun hx => by have := h11b (Or.inl hx.1); omega,
              fun _ => by have := h11c; omega,
              by omega⟩
          | succ j =>
            have hstep : loadStep cuda false s = s := by
              simp [loadStep, hpc]
            rw [hstep]
            exact ⟨h1, h2, h3, h4, h5, h6a, h6b, h6c, h7a, h7b, h7c, h8, h9, h10,
              h11a, h11b, h11c⟩

theorem raceInv_run (cuda : Bool) (sched : List Bool) : RaceInv (raceRun cuda sched) := by
  unfold raceRun
  have hgen : ∀ (l : List Bool) (s : RaceState), RaceInv s →
      RaceInv (l.foldl (fun s t => loadStep cuda t s) s) := by
    intro l
    induction l with
    | nil => intro s hs; exact hs
    | cons t ts ih =>
      intro s hs
      exact ih _ (raceInv_step cuda t s hs)
  exact hgen sched raceInit raceInv_init

/-- C2 (amended): `load_model` is not protected by any lock (the
double-checked locking in `__new__` guards only singleton creation), so
when two threads concurrently make a first-time load on the unloaded
singleton, between one and two full load sequences execute: under every
schedule in which both threads complete, the model has been loaded, the
model was instantiated at least once and at most twice, the load duration
was recorded exactly as many times as the model was instantiated, and the
device was selected at least once and at most twice — the `== "auto"` test
and the assignment are separate statements, so both threads can select —
and never more often than the model was instantiated. -/
theorem load_race_spec (cuda : Bool) (sched : List Bool)
    (hdone1 : (raceRun cuda sched).pc1 = 4) (hdone2 : (raceRun cuda sched).pc2 = 4) :
    (raceRun cuda sched).modelLoaded = true ∧
    1 ≤ (raceRun cuda sched).loadCount ∧
    (raceRun cuda sched).loadCount ≤ 2 ∧
    (raceRun cuda sched).loadTimeRecords = (raceRun cuda sched).loadCount ∧
    1 ≤ (raceRun cuda sched).deviceSelections ∧
    (raceRun cuda sched).deviceSelections ≤ 2 ∧
    (raceRun cuda sched).deviceSelections ≤ (raceRun cuda sched).loadCount := by
  obtain ⟨h1, h2, h3, h4, h5, h6a, h6b, h6c, h7a, h7b, h7c, h8, h9, h10,
    h11a, h11b, h11c⟩ := raceInv_run cuda sched
  have hml : (raceRun cuda sched).modelLoaded = true := h8 (Or.inl hdone1)
  have hcount : 1 ≤ (raceRun cuda sched).loadCount := h4.mp hml
  exact ⟨hml, hcount, h6c, h5, h10 hcount, h7c, h11a ⟨by omega, by omega⟩⟩

/-- C2 witness: under the serialised schedule thread 1 then thread 2, both
threads complete, the model loads once, the device is selected once, and
the race-spec conclusions hold at that concrete run. -/
theorem load_race_spec_witness :
    (raceRun false [true, true, true, true, false]).modelLoaded = true ∧
    1 ≤ (raceRun false [true, true, true, true, false]).loadCount ∧
    (raceRun false [true, true, true, true, false]).loadCount ≤ 2 ∧
    (raceRun false [true, true, true, true, false]).loadTimeRecords =
      (raceRun false [true, true, true, true, false]).loadCount ∧
    1 ≤ (raceRun false [true, true, true, true, false]).deviceSelections ∧
    (raceRun false [true, true, true, true, false]).deviceSelections ≤ 2 ∧
    (raceRun false [true, true, true, true, false]).deviceSelections ≤
      (raceRun false [true, true, true, true, false]).loadCount :=
  load_race_spec false [true, true, true, true, false] (by decide) (by decide)
/-! ## `remove_silence` (`audio_utils.py`)

`envelope = np.abs(signal.hilbert(signal.medfilt(np.abs(audio), 101)))`:
the rectification and the 101-tap median filter are embedded exactly; the
analytic-signal magnitude `np.abs(hilbert(·))` is an FFT-based numeric
transform and is kept as an explicit function parameter `hilbertAbs`. -/

/-- Median of a list: middle element of the sorted list (what
`scipy.signal.medfilt` computes per window of odd length). -/
def median (xs : List ℚ) : ℚ :=
  (xs.mergeSort (· ≤ ·)).getD (xs.length / 2) 0

/-- The zero-padded window of size `k` centred at `i`
(`scipy.signal.medfilt` boundary behaviour). -/
def medfiltWindow (l : List ℚ) (k i : ℕ) : List ℚ :=
  (List.range k).map (fun j =>
    let idx : ℤ := (i : ℤ) + j - (k / 2 : ℕ)
    if 0 ≤ idx ∧ idx < l.length then l.getD idx.toNat 0 else 0)

/-- `scipy.signal.medfilt(l, k)`. -/
def medfilt (l : List ℚ) (k : ℕ) : List ℚ :=
  (List.range l.length).map (fun i => median (medfiltWindow l k i))

/-- Linear amplitude for a threshold of `20·k` dB: `10^(db/20) = 10^k`.
The default `threshold_db = -40` gives `dbToAmp (-40 / 20) = 1/100`. -/
def dbToAmp (k : ℤ) : ℚ := (10 : ℚ) ^ k

/-- The envelope of `remove_silence`:
`np.abs(hilbert(medfilt(np.abs(audio_data), 101)))`, with the
analytic-signal magnitude `np.abs(hilbert(.))` as the parameter
`hilbertAbs`. -/
def silenceEnvelope (hilbertAbs : List ℚ → List ℚ) (audio : List ℚ) : List ℚ :=
  hilbertAbs (medfilt (audio.map (fun x => |x|)) 101)

/-- The index-and-slice part of `remove_silence`: threshold the envelope,
find the first and last index above the threshold
(`np.where(non_silent)[0]`), slice
`[first - frame_length : last + frame_length]` clamped to the buffer; if no
index is above the threshold, return the input unmodified. -/
def sliceLoud (env audio : List ℚ) (threshold : ℚ) (frameLength : ℕ) : List ℚ :=
  let indices := (List.range env.length).filter (fun i => threshold < env.getD i 0)
  match indices with
  | [] => audio
  | i :: _ =>
    let start := i - frameLength
    let stop := min audio.length (indices.getLastD 0 + frameLength)
    (audio.drop start).take (stop - start)

/-- `remove_silence(audio_data, ...)`. -/
def removeSilence (hilbertAbs : List ℚ → List ℚ) (audio : List ℚ)
    (threshold : ℚ) (frameLength : ℕ) : List ℚ :=
  sliceLoud (silenceEnvelope hilbertAbs audio) audio threshold frameLength

theorem pairwise_lt_filter_range (n : ℕ) (p : ℕ → Bool) :
    ((List.range n).filter p).Pairwise (· < ·) :=
  (List.pairwise_lt_range n).filter p

theorem head_le_of_pairwise_lt {a : ℕ} {t : List ℕ}
    (h : (a :: t).Pairwise (· < ·)) {x : ℕ} (hx : x ∈ a :: t) : a ≤ x := by
  rcases List.mem_cons.mp hx with h1 | h1
  · omega
  · exact le_of_lt ((List.pairwise_cons.mp h).1 x h1)

theorem le_getLast_of_pairwise_lt {l : List ℕ} (h : l.Pairwise (· < ·))
    (hne : l ≠ []) {x : ℕ} (hx : x ∈ l) : x ≤ l.getLast hne := by
  induction l with
  | nil => exact absurd rfl hne
  | cons a t ih =>
    cases t with
    | nil =>
      rw [List.mem_singleton.mp hx]
      rfl
    | cons b u =>
      rw [List.getLast_cons (List.cons_ne_nil b u)]
      rcases List.mem_cons.mp hx with h1 | h1
      · subst h1
        exact le_of_lt ((List.pairwise_cons.mp h).1 _
          (List.getLast_mem (List.cons_ne_nil b u)))
      · exact ih (List.pairwise_cons.mp h).2 (List.cons_ne_nil b u) h1

theorem getLastD_cons_eq_getLast (a : ℕ) (t : List ℕ) :
    (a :: t).getLastD 0 = (a :: t).getLast (List.cons_ne_nil a t) := by
  rw [List.getLastD_eq_getLast?, List.getLast?_eq_getLast _ (List.cons_ne_nil a t)]
  rfl

theorem sliceLoud_all_le (env audio : List ℚ) (threshold : ℚ) (frame : ℕ)
    (hall : env.all (fun x => decide (x ≤ threshold)) = true) :
    sliceLoud env audio threshold frame = audio := by
  have hnil : (List.range env.length).filter (fun i => threshold < env.getD i 0) = [] := by
    rw [List.filter_eq_nil_iff]
    intro i hi
    have hilt : i < env.length := List.mem_range.mp hi
    have hmem := List.all_eq_true.mp hall (env.getD i 0)
      (by rw [List.getD_eq_getElem env 0 hilt]; exact List.getElem_mem hilt)
    simp only [decide_eq_true_eq] at hmem
    simp only [decide_eq_true_eq, not_lt]
    exact hmem
  unfold sliceLoud
  rw [hnil]

theorem sliceLoud_any_gt (env audio : List ℚ) (threshold : ℚ) (frame : ℕ)
    (hany : env.any (fun x => decide (threshold < x)) = true) :
    ∃ first lst, first ≤ lst ∧ lst < env.length ∧
      threshold < env.getD first 0 ∧
      (∀ j, j < first → env.getD j 0 ≤ threshold) ∧
      threshold < env.getD lst 0 ∧
      (∀ j, lst < j → j < env.length → env.getD j 0 ≤ threshold) ∧
      sliceLoud env audio threshold frame =
        (audio.drop (first - frame)).take
          (min audio.length (lst + frame) - (first - frame)) := by
  have hmemfilter : ∀ j : ℕ,
      (j ∈ (List.range env.length).filter (fun i => threshold < env.getD i 0)) ↔
      (j < env.length ∧ threshold < env.getD j 0) := by
    intro j
    rw [List.mem_filter, List.mem_range]
    simp
  have hpair := pairwise_lt_filter_range env.length
    (fun i => decide (threshold < env.getD i 0))
  have hne : (List.range env.length).filter (fun i => threshold < env.getD i 0) ≠ [] := by
    rcases List.any_eq_true.mp hany with ⟨x, hx, hxt⟩
    rcases List.mem_iff_getElem.mp hx with ⟨i, hi, hix⟩
    intro hcontra
    have : i ∈ (List.range env.length).filter (fun i => threshold < env.getD i 0) := by
      rw [hmemfilter]
      refine ⟨hi, ?_⟩
      rw [List.getD_eq_getElem env 0 hi, hix]
      simpa using hxt
    rw [hcontra] at this
    exact List.not_mem_nil i this
  cases hind : (List.range env.length).filter (fun i => threshold < env.getD i 0) with
  | nil => exact absurd hind hne
  | cons i rest =>
    rw [hind] at hpair
    have hhead : i ∈ (List.range env.length).filter (fun i => threshold < env.getD i 0) := by
      rw [hind]
      exact List.mem_cons_self i rest
    have hi := (hmemfilter i).mp hhead
    have hlastmem0 : (i :: rest).getLastD 0 ∈ (i :: rest) := by
      rw [getLastD_cons_eq_getLast]
      exact List.getLast_mem (List.cons_ne_nil i rest)
    have hlastmem : (i :: rest).getLastD 0 ∈
        (List.range env.length).filter (fun i => threshold < env.getD i 0) := by
      rw [hind]
      exact hlastmem0
    have hlast := (hmemfilter _).mp hlastmem
    refine ⟨i, (i :: rest).getLastD 0,
      head_le_of_pairwise_lt hpair hlastmem0, hlast.1, hi.2, ?_, hlast.2, ?_, ?_⟩
    · intro j hj
      by_contra hcon
      push_neg at hcon
      have hjm : j ∈ (List.range env.length).filter (fun i => threshold < env.getD i 0) := by
        rw [hmemfilter]
        exact ⟨lt_trans hj hi.1, hcon⟩
      rw [hind] at hjm
      exact absurd (head_le_of_pairwise_lt hpair hjm) (by omega)
    · intro j hj hjlen
      by_contra hcon
      push_neg at hcon
      have hjm : j ∈ (List.range env.length).filter (fun i => threshold < env.getD i 0) := by
        rw [hmemfilter]
        exact ⟨hjlen, hcon⟩
      rw [hind] at hjm
      have := le_getLast_of_pairwise_lt hpair (List.cons_ne_nil i rest) hjm
      rw [← getLastD_cons_eq_getLast] at this
      omega
    · unfold sliceLoud
      rw [hind]

/-- C8: for every input buffer, `remove_silence` computes the envelope as
the analytic-signal magnitude of the 101-tap median-filtered rectified
signal; with the linear threshold (the source computes it as
`10^(threshold_db/20)`; the default −40 dB gives `dbToAmp (-40/20) = 1/100`):
if no envelope sample exceeds the threshold the input buffer is returned
unmodified (never an empty buffer for non-empty input), and otherwise the
result is the contiguous slice
`[first_above − frame_length, last_above + frame_length)` clamped to the
buffer bounds, where `first_above`/`last_above` are the least/greatest
envelope indices above the threshold. -/
theorem removeSilence_spec (hilbertAbs : List ℚ → List ℚ) (audio : List ℚ)
    (threshold : ℚ) (frameLength : ℕ) :
    ((silenceEnvelope hilbertAbs audio).all (fun x => decide (x ≤ threshold)) = true →
      removeSilence hilbertAbs audio threshold frameLength = audio) ∧
    ((silenceEnvelope hilbertAbs audio).any (fun x => decide (threshold < x)) = true →
      ∃ first lst, first ≤ lst ∧ lst < (silenceEnvelope hilbertAbs audio).length ∧
        threshold < (silenceEnvelope hilbertAbs audio).getD first 0 ∧
        (∀ j, j < first → (silenceEnvelope hilbertAbs audio).getD j 0 ≤ threshold) ∧
        threshold < (silenceEnvelope hilbertAbs audio).getD lst 0 ∧
        (∀ j, lst < j → j < (silenceEnvelope hilbertAbs audio).length →
          (silenceEnvelope hilbertAbs audio).getD j 0 ≤ threshold) ∧
        removeSilence hilbertAbs audio threshold frameLength =
          (audio.drop (first - frameLength)).take
            (min audio.length (lst + frameLength) - (first - frameLength))) :=
  ⟨sliceLoud_all_le (silenceEnvelope hilbertAbs audio) audio threshold frameLength,
   sliceLoud_any_gt (silenceEnvelope hilbertAbs audio) audio threshold frameLength⟩

/-- C8 witness: with an analytic-magnitude stub that reports an all-quiet
envelope the input comes back unmodified, and with one that reports a loud
sample the characterised slice is produced. -/
theorem removeSilence_spec_witness :
    removeSilence (fun _ => []) [1, 2] (dbToAmp (-40 / 20)) 2048 = [1, 2] ∧
    (∃ first lst, first ≤ lst ∧ lst < (silenceEnvelope (fun _ => [1]) [5]).length ∧
      (0 : ℚ) < (silenceEnvelope (fun _ => [1]) [5]).getD first 0 ∧
      (∀ j, j < first → (silenceEnvelope (fun _ => [1]) [5]).getD j 0 ≤ 0) ∧
      (0 : ℚ) < (silenceEnvelope (fun _ => [1]) [5]).getD lst 0 ∧
      (∀ j, lst < j → j < (silenceEnvelope (fun _ => [1]) [5]).length →
        (silenceEnvelope (fun _ => [1]) [5]).getD j 0 ≤ 0) ∧
      removeSilence (fun _ => [1]) [5] 0 0 =
        (([5] : List ℚ).drop (first - 0)).take
          (min ([5] : List ℚ).length (lst + 0) - (first - 0))) := by
  constructor
  · exact (removeSilence_spec (fun _ => []) [1, 2] (dbToAmp (-40 / 20)) 2048).1 (by rfl)
  · exact (removeSilence_spec (fun _ => [1]) [5] 0 0).2 (by rfl)
